/-
Verification of the device-control runtime of the Backend repository.

The definitions below are shallow embeddings of the Python sources:
  * `app/services/controller.py`        — relay polarity handling (RelayControl)
  * `app/core/tasks/rule_tasks.py`      — edge-triggered rule evaluation
  * `app/core/tasks/relay_tasks.py`     — schedules and pulse
  * `app/core/env_settings.py`          — hardware map and day bitmask
  * `app/core/services/config_manager.py` — deep merge of configurations
  * `app/services/influxdb_client.py`   — circuit breaker of the writer
  * `app/core/tasks/sensor_tasks.py`    — sensor collection and health flags
-/
import Mathlib

set_option maxRecDepth 4000

/-! ## Relay polarity (app/services/controller.py)

`gpiod.line.Value`: INACTIVE and ACTIVE hardware levels. -/

inductive GpioValue where
  | INACTIVE
  | ACTIVE
deriving DecidableEq, Repr

/-- Result of `RelayControl._change_state`: the returned dict
`(id omitted, status, state)`. -/
structure ChangeResult where
  status : String
  state : Nat
deriving DecidableEq, Repr

/-- `RelayControl._logical_to_hardware_value`: convert a logical state
(1 for ON, 0 for OFF) to the hardware level, according to the `normally`
wiring ("open" or "closed"); unknown wiring raises ValueError. -/
def logical_to_hardware_value (normally : String) (logical_state : Nat) :
    Except String GpioValue :=
  if normally = "open" then
    .ok (if logical_state = 1 then .ACTIVE else .INACTIVE)
  else if normally = "closed" then
    .ok (if logical_state = 1 then .INACTIVE else .ACTIVE)
  else
    .error "Unknown normally state"

/-- `RelayControl._hardware_to_logical_state`: convert a hardware level back
to the logical state. -/
def hardware_to_logical_state (normally : String) (hardware_value : GpioValue) :
    Except String Nat :=
  if normally = "open" then
    .ok (if hardware_value = .ACTIVE then 1 else 0)
  else if normally = "closed" then
    .ok (if hardware_value = .INACTIVE then 1 else 0)
  else
    .error "Unknown normally state"

/-- `RelayControl._get_current_state`: read the pin level and translate it to
the logical state.  The GPIO line holds the last written level. -/
def get_current_state (normally : String) (hw : GpioValue) : Except String Nat :=
  hardware_to_logical_state normally hw

/-- `RelayControl._change_state`: write the hardware level corresponding to the
new logical state, read it back and report success iff the read-back matches.
The pin level is the first component of the result; states other than 0/1
raise ValueError before touching the hardware. -/
def change_state (normally : String) (hw : GpioValue) (new_logical_state : Nat) :
    Except String (GpioValue × ChangeResult) :=
  if new_logical_state ≠ 0 ∧ new_logical_state ≠ 1 then
    .error "State must be 0 (OFF) or 1 (ON)"
  else
    match logical_to_hardware_value normally new_logical_state with
    | .error _ =>
        -- the exception is caught; the error dict reports the current state
        match get_current_state normally hw with
        | .ok s => .ok (hw, { status := "error", state := s })
        | .error e => .error e
    | .ok hardware_value =>
        match get_current_state normally hardware_value with
        | .ok confirmed_state =>
            .ok (hardware_value,
              { status := if confirmed_state = new_logical_state then "success" else "error",
                state := confirmed_state })
        | .error e => .error e

/-- `RelayControl.turn_on`. -/
def turn_on (normally : String) (hw : GpioValue) :
    Except String (GpioValue × ChangeResult) :=
  change_state normally hw 1

/-- `RelayControl.turn_off`. -/
def turn_off (normally : String) (hw : GpioValue) :
    Except String (GpioValue × ChangeResult) :=
  change_state normally hw 0

/-- `RelayControl.toggle`: read the current logical state and drive the relay
to the opposite one. -/
def toggle (normally : String) (hw : GpioValue) :
    Except String (GpioValue × ChangeResult) :=
  match get_current_state normally hw with
  | .ok current_state =>
      change_state normally hw (if current_state = 0 then 1 else 0)
  | .error e => .error e

/-! ## Pulse (app/core/tasks/relay_tasks.py, pulse_relay)

`pulse_relay` toggles the relay at once and schedules one `set_relay_state`
task to run `duration` seconds later with argument `initial_state == 0`,
returning without waiting for it (`apply_async` with `countdown`). -/

/-- The reverse-toggle task submitted by `pulse_relay` through
`set_relay_state.apply_async(args=[relay_id, initial_state == 0],
countdown=duration)`. -/
structure ScheduledToggle where
  target_on : Bool
  countdown : Rat
deriving DecidableEq, Repr

/-- `set_relay_state` task body: turn the relay on or off. -/
def set_relay_state (normally : String) (hw : GpioValue) (state : Bool) :
    Except String (GpioValue × ChangeResult) :=
  if state then turn_on normally hw else turn_off normally hw

/-- `pulse_relay` task body: toggle immediately, then schedule the single
reverse toggle; the pin level after the immediate toggle and the scheduled
task are returned, the scheduled task has not run yet. -/
def pulse_relay (normally : String) (hw : GpioValue) (duration : Rat) :
    Except String (GpioValue × ChangeResult × ScheduledToggle) :=
  match toggle normally hw with
  | .ok (hw1, initial_result) =>
      .ok (hw1, initial_result,
        { target_on := decide (initial_result.state = 0), countdown := duration })
  | .error e => .error e

/-! ## Hardware map and the relay task layer
(app/core/env_settings.py, app/core/tasks/relay_tasks.py) -/

/-- One entry of `EnvSettings.HARDWARE_CONFIG`. -/
structure HardwareEntry where
  pin : Nat
  normally : String
deriving DecidableEq, Repr

/-- `EnvSettings.HARDWARE_CONFIG`: the six relays; there is no entry for
`main`. -/
def HARDWARE_CONFIG : List (String × HardwareEntry) :=
  [("relay_1", { pin := 22, normally := "closed" }),
   ("relay_2", { pin := 27, normally := "closed" }),
   ("relay_3", { pin := 17, normally := "open" }),
   ("relay_4", { pin := 4,  normally := "open" }),
   ("relay_5", { pin := 24, normally := "open" }),
   ("relay_6", { pin := 23, normally := "open" })]

/-- `RelayControl._get_hardware_info`: `env.HARDWARE_CONFIG.get(relay_id)`. -/
def get_hardware_info (relay_id : String) : Option HardwareEntry :=
  HARDWARE_CONFIG.lookup relay_id

/-- `RelayControl.__init__`: raises ValueError when the relay id has no
hardware configuration. -/
def relay_control_init (relay_id : String) : Except String HardwareEntry :=
  match get_hardware_info relay_id with
  | some config => .ok config
  | none => .error ("No configuration found for relay " ++ relay_id)

/-- Result dict of the relay Celery tasks (status plus reported state). -/
structure TaskResult where
  status : String
  state : Option Nat
deriving DecidableEq, Repr

/-- `get_relay_state` task: construct the controller and read the state;
any exception yields a status "error" result. The hardware is a map from
relay id to the pin level. -/
def get_relay_state_task (hw : String → GpioValue) (relay_id : String) : TaskResult :=
  match relay_control_init relay_id with
  | .ok config =>
      match get_current_state config.normally (hw relay_id) with
      | .ok s => { status := "success", state := some s }
      | .error _ => { status := "error", state := none }
  | .error _ => { status := "error", state := none }

/-- `set_relay_state` task with controller construction: on error the
hardware map is untouched and an error result is returned. -/
def set_relay_state_task (hw : String → GpioValue) (relay_id : String) (state : Bool) :
    (String → GpioValue) × TaskResult :=
  match relay_control_init relay_id with
  | .ok config =>
      match set_relay_state config.normally (hw relay_id) state with
      | .ok (level, res) =>
          (fun i => if i = relay_id then level else hw i,
           { status := res.status, state := some res.state })
      | .error _ => (hw, { status := "error", state := none })
  | .error _ => (hw, { status := "error", state := none })

/-- `pulse_relay` task with controller construction. -/
def pulse_relay_task (hw : String → GpioValue) (relay_id : String) (duration : Rat) :
    (String → GpioValue) × TaskResult × Option ScheduledToggle :=
  match relay_control_init relay_id with
  | .ok config =>
      match pulse_relay config.normally (hw relay_id) duration with
      | .ok (level, res, sched) =>
          (fun i => if i = relay_id then level else hw i,
           { status := "success", state := some res.state }, some sched)
      | .error _ => (hw, { status := "error", state := none }, none)
  | .error _ => (hw, { status := "error", state := none }, none)

/-! ## Schedules (app/core/tasks/relay_tasks.py, _should_be_on)

The source compares "HH:MM" strings with Python string comparison, which is
lexicographic on code points; `pyStrLt` embeds exactly that. -/

/-- Python `<` on strings: lexicographic comparison of code points. -/
def pyStrLtAux : List Char → List Char → Bool
  | [], [] => false
  | [], _ :: _ => true
  | _ :: _, [] => false
  | a :: as, b :: bs =>
      if a.toNat < b.toNat then true
      else if b.toNat < a.toNat then false
      else pyStrLtAux as bs

/-- Python `a < b` on strings. -/
def pyStrLt (a b : String) : Bool := pyStrLtAux a.data b.data

/-- Python `a <= b` on strings (total order, so `a <= b` iff `not (b < a)`). -/
def pyStrLe (a b : String) : Bool := ! pyStrLt b a

/-- `RelaySchedule` (app/core/models/config_models.py). A schedule field
holding `False` (the model allows `Union[RelaySchedule, bool]`) behaves as a
missing schedule in `_should_be_on`, since `getattr(schedule, 'enabled',
False)` is then false; both are modelled as `none`. -/
structure RelaySchedule where
  enabled : Bool
  on_time : Option String
  off_time : Option String
  days_mask : Nat
deriving DecidableEq, Repr

/-- `day_names` in `_should_be_on`: indexed by `datetime.weekday()`
(Monday = 0). -/
def day_names : List String :=
  ["Monday", "Tuesday", "Wednesday", "Thursday", "Friday", "Saturday", "Sunday"]

/-- `EnvSettings.DAY_BITMASK` with the `.get(name, 0)` default. -/
def DAY_BITMASK (day : String) : Nat :=
  if day = "Sunday" then 2
  else if day = "Monday" then 4
  else if day = "Tuesday" then 8
  else if day = "Wednesday" then 16
  else if day = "Thursday" then 32
  else if day = "Friday" then 64
  else if day = "Saturday" then 128
  else 0

/-- `_should_be_on`: wall time is the "HH:MM" string of the current local
time, `weekday` is `datetime.weekday()` (Monday = 0). Falsy `on_time` and
`off_time` fall back to "00:00" and "23:59". -/
def should_be_on (schedule : Option RelaySchedule) (current_time : String)
    (weekday : Nat) : Bool :=
  match schedule with
  | none => false
  | some s =>
      if ! s.enabled then false
      else
        let on_time := match s.on_time with
          | none => "00:00"
          | some t => if t = "" then "00:00" else t
        let off_time := match s.off_time with
          | none => "23:59"
          | some t => if t = "" then "23:59" else t
        let current_day_name := day_names.getD weekday ""
        let day_bit := DAY_BITMASK current_day_name
        if s.days_mask &&& day_bit = 0 then false
        else if pyStrLt off_time on_time then
          pyStrLe on_time current_time || pyStrLt current_time off_time
        else
          pyStrLe on_time current_time && pyStrLt current_time off_time

/-- Zero-padded "HH:MM" rendering, as produced by `now.strftime("%H:%M")`. -/
def toHHMM (h m : Nat) : String :=
  String.mk [Nat.digitChar (h / 10), Nat.digitChar (h % 10), ':',
             Nat.digitChar (m / 10), Nat.digitChar (m % 10)]

/-- Spec-side day-bit table by `weekday()` index, from the documented fixed
mapping Sunday=2, Monday=4, Tuesday=8, Wednesday=16, Thursday=32, Friday=64,
Saturday=128 (weekday 0 is Monday). -/
def weekday_bit_spec : Nat → Nat
  | 0 => 4
  | 1 => 8
  | 2 => 16
  | 3 => 32
  | 4 => 64
  | 5 => 128
  | 6 => 2
  | _ => 0

/-- Spec-side window membership in minutes since midnight: `[on, off)` when
`on ≤ off`, and `[on, 24:00) ∪ [00:00, off)` when `on > off`. -/
def schedule_window_spec (onM offM curM : Nat) : Prop :=
  if onM ≤ offM then onM ≤ curM ∧ curM < offM
  else onM ≤ curM ∨ curM < offM

/-- One relay element of the configuration, as `check_schedules` reads it. -/
structure RelayConf where
  id : String
  name : String
  enabled : Bool
  pulse_time : Nat
  schedule : Option RelaySchedule

/-- What `check_schedules` recorded for one relay. -/
inductive ScheduleCheckResult where
  | skipped
  | checked (action_needed : Bool)
  | errored
deriving DecidableEq, Repr

/-- The body of the `check_schedules` loop for one relay: disabled relays and
disabled/missing schedules are skipped; any exception (in particular a relay
id absent from the hardware map) is caught and recorded as an error; when a
state change is needed, a `set_relay_state` task is dispatched (third
component) — the hardware map itself is not mutated here. -/
def check_schedule_relay (hw : String → GpioValue) (relay : RelayConf)
    (current_time : String) (weekday : Nat) :
    (String → GpioValue) × ScheduleCheckResult × Option Bool :=
  if ! relay.enabled then (hw, .skipped, none)
  else
    match relay.schedule with
    | none => (hw, .skipped, none)
    | some sched =>
        if ! sched.enabled then (hw, .skipped, none)
        else
          let sbo := should_be_on (some sched) current_time weekday
          match relay_control_init relay.id with
          | .error _ => (hw, .errored, none)
          | .ok config =>
              match get_current_state config.normally (hw relay.id) with
              | .error _ => (hw, .errored, none)
              | .ok current_state =>
                  let is_on := decide (current_state = 1)
                  if sbo ≠ is_on then (hw, .checked true, some sbo)
                  else (hw, .checked false, none)

/-! ## Rule engine (app/core/tasks/rule_tasks.py) -/

/-- `TaskAction` (app/core/models/config_models.py). -/
structure RuleAction where
  type : String
  target : Option String := none
  state : Option String := none
  message : Option String := none
deriving DecidableEq, Repr

/-- `Task` (a rule) from the configuration; numeric values are rationals. -/
structure RuleTask where
  id : String
  name : String
  source : String
  field : String
  operator : String
  value : Rat
  actions : List RuleAction
deriving DecidableEq

/-- The rule state persisted through `get_rule_state`/`set_rule_state`:
latch plus the last-triggered and last-cleared timestamps. -/
structure RuleStore where
  state : String → Bool
  triggered : String → Option Nat
  cleared : String → Option Nat

/-- `get_rule_state`. -/
def get_rule_state (store : RuleStore) (task_id : String) : Bool :=
  store.state task_id

/-- `set_rule_state`: store the latch and record the triggered timestamp when
setting it, the cleared timestamp when clearing it. -/
def set_rule_state (store : RuleStore) (task_id : String) (b : Bool) (now : Nat) :
    RuleStore :=
  { state := fun i => if i = task_id then b else store.state i,
    triggered := fun i => if i = task_id ∧ b then some now else store.triggered i,
    cleared := fun i => if i = task_id ∧ ¬ b then some now else store.cleared i }

/-- `_evaluate_condition`: unknown operators evaluate to false. -/
def evaluate_condition (value : Rat) (operator : String) (threshold : Rat) : Bool :=
  if operator = ">" then decide (value > threshold)
  else if operator = "<" then decide (value < threshold)
  else if operator = ">=" then decide (value ≥ threshold)
  else if operator = "<=" then decide (value ≤ threshold)
  else if operator = "==" then decide (value = threshold)
  else if operator = "!=" then decide (value ≠ threshold)
  else false

/-- One `execute_action.delay(task.id, task.name, action_data, data)` call. -/
structure Dispatch where
  task_id : String
  task_name : String
  action : RuleAction
deriving DecidableEq

/-- The `evaluate_rules` loop body for one rule: skip when the field is
missing from the sample, dispatch all actions on the false→true edge,
clear silently on the true→false edge, otherwise do nothing. -/
def evaluate_rule_step (store : RuleStore) (now : Nat)
    (data : List (String × Rat)) (task : RuleTask) : RuleStore × List Dispatch :=
  match data.lookup task.field with
  | none => (store, [])
  | some value =>
      let condition_met := evaluate_condition value task.operator task.value
      let previously_triggered := get_rule_state store task.id
      if condition_met ∧ ¬ previously_triggered then
        (set_rule_state store task.id true now,
         task.actions.map (fun a => { task_id := task.id, task_name := task.name, action := a }))
      else if ¬ condition_met ∧ previously_triggered then
        (set_rule_state store task.id false now, [])
      else
        (store, [])

/-- `evaluate_rules`: filter the rules of the sample's source and process
them in configured order. -/
def evaluate_rules (store : RuleStore) (now : Nat) (source : String)
    (data : List (String × Rat)) (tasks : List RuleTask) : RuleStore × List Dispatch :=
  (tasks.filter (fun t => t.source == source)).foldl
    (fun acc task =>
      let r := evaluate_rule_step acc.1 now data task
      (r.1, acc.2 ++ r.2))
    (store, [])

/-- Feed a sequence of samples of one source through `evaluate_rules`,
returning the per-sample dispatch counts (the sample's index serves as its
timestamp). -/
def run_rule_samples : RuleStore → Nat → String → List RuleTask →
    List (List (String × Rat)) → RuleStore × List Nat
  | store, _, _, _, [] => (store, [])
  | store, now, source, tasks, d :: rest =>
      let r := evaluate_rules store now source d tasks
      let rec_result := run_rule_samples r.1 (now + 1) source tasks rest
      (rec_result.1, r.2.length :: rec_result.2)

/-- The all-false rule store of a cold start with no cache. -/
def emptyRuleStore : RuleStore :=
  { state := fun _ => false, triggered := fun _ => none, cleared := fun _ => none }

/-! ## Circuit breaker (app/services/influxdb_client.py) -/

/-- The breaker fields of `InfluxDBConnectionManager`. -/
structure BreakerState where
  failure_count : Nat
  last_failure_time : Int
  circuit_open : Bool
deriving DecidableEq, Repr

/-- `reset_timeout = 60` seconds. -/
def reset_timeout : Int := 60

/-- `failure_threshold = 5`. -/
def failure_threshold : Nat := 5

/-- `_handle_connection_failure`: count the failure, stamp it, and open the
breaker at the threshold. -/
def handle_connection_failure (s : BreakerState) (now : Int) : BreakerState :=
  let s1 : BreakerState :=
    { s with failure_count := s.failure_count + 1, last_failure_time := now }
  if s1.failure_count ≥ failure_threshold then { s1 with circuit_open := true }
  else s1

/-- `get_client`: fail fast while the breaker is open and the timeout has not
elapsed; reset the breaker once it has; then create a client and ping.
Returns (state, client obtained, store contacted); a failed ping or a raised
exception is `ping_ok = false`. -/
def get_client (s : BreakerState) (now : Int) (ping_ok : Bool) :
    BreakerState × Bool × Bool :=
  if s.circuit_open then
    if now - s.last_failure_time > reset_timeout then
      let s1 : BreakerState := { s with circuit_open := false, failure_count := 0 }
      if ping_ok then ({ s1 with failure_count := 0 }, true, true)
      else (handle_connection_failure s1 now, false, true)
    else (s, false, false)
  else
    if ping_ok then ({ s with failure_count := 0 }, true, true)
    else (handle_connection_failure s now, false, true)

/-- `InfluxDBWriter._flush_internal`: nothing happens on an empty buffer;
otherwise the buffer is taken, a client is requested, and the batch is either
written (a write error only loses the batch — it does not touch the breaker)
or discarded when no client is available. Returns
(breaker, remaining buffer, batch written, store contacted). -/
def flush_internal (s : BreakerState) (buffer : List Nat) (now : Int)
    (ping_ok write_ok : Bool) : BreakerState × List Nat × Bool × Bool :=
  if buffer.isEmpty then (s, buffer, false, false)
  else
    let r := get_client s now ping_ok
    if r.2.1 then (r.1, [], write_ok, true)
    else (r.1, [], false, r.2.2)

/-! ## Sensor collection (app/core/tasks/sensor_tasks.py) -/

/-- Python-dict update on an association list: replace in place or append. -/
def dictSet {α : Type} (l : List (String × α)) (k : String) (v : α) :
    List (String × α) :=
  match l with
  | [] => [(k, v)]
  | (k', v') :: rest =>
      if k' = k then (k', v) :: rest else (k', v') :: dictSet rest k v

/-- The mutable maps of `SensorDataCollector`: `_sensor_health`,
`_last_successful_reads`, and the latest-sample store fed through
`update_sensor_data` (keyed by the WebSocket source key). -/
structure CollectorState where
  sensor_health : List (String × Bool)
  last_successful_reads : List (String × Nat)
  latest_samples : List (String × List (String × Rat))
deriving DecidableEq

/-- Outcome of one INA260 read attempt. -/
inductive ReadOutcome where
  | init_failure
  | incomplete
  | ok (voltage current power : Rat)
  | timeout
  | failure (msg : String)
deriving DecidableEq

/-- `SensorDataCollector._read_relay_sensor` for one relay sensor: on
success the latest-sample store is updated under `relay_<relay_id>`, the
health flag set, and `evaluate_rules.delay(relay_id, mapped_data)` dispatched
(returned as the third component); a timeout or exception sets the health
flag to false; an init failure or incomplete data only reports an error.
The sample cache is untouched in every failure case. -/
def read_relay_sensor (st : CollectorState) (relay_id : String) (now : Nat)
    (outcome : ReadOutcome) :
    CollectorState × Bool × Option (String × List (String × Rat)) :=
  let sensor_key := "ina260_" ++ relay_id
  match outcome with
  | .init_failure => (st, false, none)
  | .incomplete => (st, false, none)
  | .timeout =>
      ({ st with sensor_health := dictSet st.sensor_health sensor_key false },
       false, none)
  | .failure _ =>
      ({ st with sensor_health := dictSet st.sensor_health sensor_key false },
       false, none)
  | .ok voltage current power =>
      let data : List (String × Rat) :=
        [("voltage", voltage), ("current", current), ("power", power)]
      let mapped_data : List (String × Rat) :=
        [("volts", voltage), ("amps", current), ("watts", power)]
      ({ st with
          latest_samples := dictSet st.latest_samples ("relay_" ++ relay_id) data,
          sensor_health := dictSet st.sensor_health sensor_key true,
          last_successful_reads := dictSet st.last_successful_reads sensor_key now },
       true, some (relay_id, mapped_data))

/-- `SensorDataCollector.get_sensor_health`: the health map as stored. -/
def get_sensor_health (st : CollectorState) : List (String × Bool) :=
  st.sensor_health

/-! ## Configuration documents and deep merge
(app/core/services/config_manager.py)

JSON documents as parsed by `json.loads`: objects are insertion-ordered maps
with unique keys, modelled as association lists. -/

inductive JValue where
  | null
  | bool (b : Bool)
  | num (n : Int)
  | str (s : String)
  | arr (elems : List JValue)
  | obj (fields : List (String × JValue))

/-- Python dict lookup `d[key]` / `d.get(key)` on an association list. -/
def lookupField : List (String × JValue) → String → Option JValue
  | [], _ => none
  | (k, v) :: rest, key => if k = key then some v else lookupField rest key

/-- Python dict assignment `d[key] = v` for a key already present: replace in
place, preserving insertion order. -/
def setField : List (String × JValue) → String → JValue → List (String × JValue)
  | [], _, _ => []
  | (k, v) :: rest, key, nv =>
      if k = key then (k, nv) :: rest else (k, v) :: setField rest key nv

/-- Python truthiness of a JSON value (the `if i` filter and
`if self._custom_config`). -/
def truthy : JValue → Bool
  | .null => false
  | .bool b => b
  | .num n => decide (n ≠ 0)
  | .str s => decide (s ≠ "")
  | .arr l => ! l.isEmpty
  | .obj f => ! f.isEmpty

/-- `isinstance(v, dict)`. -/
def isObjB : JValue → Bool
  | .obj _ => true
  | _ => false

/-- `all(isinstance(i, dict) for i in l if i)`: every truthy element is a
dict. -/
def allDictsB (l : List JValue) : Bool :=
  l.all (fun i => ! truthy i || isObjB i)

mutual

/-- Python `==` on JSON values; only ever applied to the hashable `id` values
of list elements (dict keys), which in every configuration are strings. -/
def jBeq : JValue → JValue → Bool
  | .null, .null => true
  | .bool a, .bool b => a == b
  | .num a, .num b => a == b
  | .str a, .str b => a == b
  | .arr a, .arr b => jBeqList a b
  | .obj a, .obj b => jBeqFields a b
  | _, _ => false

/-- Elementwise `==` on JSON arrays. -/
def jBeqList : List JValue → List JValue → Bool
  | [], [] => true
  | x :: xs, y :: ys => jBeq x y && jBeqList xs ys
  | _, _ => false

/-- Entrywise `==` on JSON objects. -/
def jBeqFields : List (String × JValue) → List (String × JValue) → Bool
  | [], [] => true
  | (k1, v1) :: xs, (k2, v2) :: ys => k1 == k2 && jBeq v1 v2 && jBeqFields xs ys
  | _, _ => false

end

/-- `item.get("id")` of a list element that is a dict with an `id` key. -/
def getId : JValue → Option JValue
  | .obj f => lookupField f "id"
  | _ => none

/-- The fields of the first list element that is a dict whose `id` equals
`i`. -/
def findItemById (i : JValue) : List JValue → Option (List (String × JValue))
  | [] => none
  | e :: rest =>
      match e with
      | .obj f =>
          match lookupField f "id" with
          | some j => if jBeq j i then some f else findItemById i rest
          | none => findItemById i rest
      | _ => findItemById i rest

/-- `item_id in target_dict`: some dict element of the list carries id `i`. -/
def hasIdB (i : JValue) (l : List JValue) : Bool :=
  (findItemById i l).isSome

mutual

/-- `_deep_merge`: merge `source` into `target` (the functional value of the
in-place mutation). Keys present in target are merged (dicts recursively,
`relays`/`tasks` lists of dicts by id, everything else replaced); new keys
are appended in source order. -/
def deep_merge (target source : List (String × JValue)) :
    List (String × JValue) :=
  match source with
  | [] => target
  | (key, value) :: rest =>
      let target1 :=
        match lookupField target key with
        | some tv => setField target key (merge_value key tv value)
        | none => target ++ [(key, value)]
      deep_merge target1 rest
termination_by (sizeOf source, 0)

/-- The merge of the two values stored under one key in `_deep_merge`:
dict with dict recurses; list with list merges by id exactly for the
`relays`/`tasks` keys when every truthy element is a dict, and is replaced
wholesale otherwise; any other combination is replaced by the source value. -/
def merge_value (key : String) (tv sv : JValue) : JValue :=
  match tv, sv with
  | .obj tf, .obj sf => .obj (deep_merge tf sf)
  | .arr tl, .arr sl =>
      if (key = "relays" ∨ key = "tasks") ∧ allDictsB (tl ++ sl) = true then
        .arr (merge_list_by_id tl sl)
      else .arr sl
  | _, _ => sv
termination_by (sizeOf sv + 1, 0)

/-- `_merge_list_by_id`: `target_dict` is built once from the original target
list, so membership tests always consult the original list. -/
def merge_list_by_id (target source : List JValue) : List JValue :=
  merge_items target target source
termination_by (sizeOf source + 1, 0)

/-- The `_merge_list_by_id` loop over source items: a dict with an id already
in the (original) target is deep-merged into the last original occurrence of
that id; a dict with a new id is appended; items that are not dicts with an
`id` key are dropped. -/
def merge_items (torig acc source : List JValue) : List JValue :=
  match source with
  | [] => acc
  | s :: rest =>
      match s with
      | .obj sf =>
          match lookupField sf "id" with
          | some i =>
              if hasIdB i torig then
                merge_items torig (update_last_by_id i sf acc) rest
              else
                merge_items torig (acc ++ [s]) rest
          | none => merge_items torig acc rest
      | _ => merge_items torig acc rest
termination_by (sizeOf source, 0)

/-- Merge the source fields `sf` into the last element of the list that is a
dict with id `i` (the element `target_dict[i]` refers to). -/
def update_last_by_id (i : JValue) (sf : List (String × JValue)) :
    List JValue → List JValue
  | [] => []
  | e :: rest =>
      if hasIdB i rest then e :: update_last_by_id i sf rest
      else
        match e with
        | .obj tf =>
            match lookupField tf "id" with
            | some j =>
                if jBeq j i then .obj (deep_merge tf sf) :: rest
                else e :: rest
            | none => e :: rest
        | _ => e :: rest
termination_by l => (sizeOf sf, sizeOf l)

end

/-- `ConfigurationManager` state: default, custom and effective documents. -/
structure ConfigState where
  default_config : List (String × JValue)
  custom_config : List (String × JValue)
  effective_config : List (String × JValue)

/-- `env.CUSTOM_CONFIG_FILE`. -/
def custom_config_path : String := "app/config/custom_config.json"

/-- `_generate_effective_config`: a deep copy of the default, with the custom
document merged on top when it is non-empty (truthy). -/
def generate_effective_config (dflt custom : List (String × JValue)) :
    List (String × JValue) :=
  if custom.isEmpty then dflt else deep_merge dflt custom

/-- Filesystem side effects of the configuration manager. -/
inductive FsOp where
  | write (path : String) (doc : List (String × JValue))
  | rename (src dst : String)
  | delete (path : String)

/-- Whether a filesystem operation is a rename. -/
def isRenameOp : FsOp → Bool
  | .rename _ _ => true
  | _ => false

/-- `_save_custom_config`: one direct `open(path, "w")` write of the dumped
custom document to the custom config path — no temporary file, no rename. -/
def save_custom_config (custom : List (String × JValue)) : List FsOp :=
  [FsOp.write custom_config_path custom]

/-- `update_custom_config`: store the new custom document, regenerate the
effective document, save to disk (its success is `save_ok`), and return the
save result.  No schema validation is performed anywhere on this path. -/
def update_custom_config (st : ConfigState)
    (new_config : List (String × JValue)) (save_ok : Bool) :
    ConfigState × Bool × List FsOp :=
  ({ st with
      custom_config := new_config,
      effective_config := generate_effective_config st.default_config new_config },
   save_ok, save_custom_config new_config)

/-- `get_full_config` (a deep copy of the effective document). -/
def get_full_config (st : ConfigState) : List (String × JValue) :=
  st.effective_config

/-- `revert_to_defaults`: clear the custom document, set the effective
document to the default, delete the custom file. -/
def revert_to_defaults (st : ConfigState) : ConfigState × Bool × List FsOp :=
  ({ st with custom_config := [], effective_config := st.default_config },
   true, [FsOp.delete custom_config_path])

/-- The fragment of the `ApplicationConfig` schema
(app/core/models/config_models.py) relevant here: the document must carry a
`relays` field holding a list. -/
def schema_requires_relays_list (cfg : List (String × JValue)) : Bool :=
  match lookupField cfg "relays" with
  | some (.arr _) => true
  | _ => false

/-! ### Well-formedness of configuration documents

`json.loads` yields objects with unique keys; configured `relays`/`tasks`
elements carry unique string ids (the spec's uniqueness invariant). -/

/-- Unique keys in an object, recursively checked through `wfFields`. -/
def keysNodup : List (String × JValue) → Bool
  | [] => true
  | (k, _) :: rest => (lookupField rest k).isNone && keysNodup rest

/-- Is the value a string? -/
def isStrB : JValue → Bool
  | .str _ => true
  | _ => false

/-- The ids carried by the dict elements of a list. -/
def item_ids (l : List JValue) : List JValue :=
  l.filterMap getId

/-- Pairwise distinctness under Python `==`. -/
def noDupB : List JValue → Bool
  | [] => true
  | i :: rest => ! (rest.any (fun j => jBeq j i)) && noDupB rest

mutual

/-- Well-formed JSON value: objects have unique keys, list elements carry
(at most) unique string ids, recursively. -/
def wfV : JValue → Bool
  | .obj fs => keysNodup fs && wfFields fs
  | .arr l => (item_ids l).all isStrB && noDupB (item_ids l) && wfList l
  | _ => true
termination_by v => sizeOf v

/-- Well-formedness of every element of an array. -/
def wfList : List JValue → Bool
  | [] => true
  | v :: rest => wfV v && wfList rest
termination_by l => sizeOf l

/-- Well-formedness of every value of an object. -/
def wfFields : List (String × JValue) → Bool
  | [] => true
  | (_, v) :: rest => wfV v && wfFields rest
termination_by fs => sizeOf fs

end

/-- Well-formed top-level document. -/
def wfDoc (cfg : List (String × JValue)) : Bool :=
  keysNodup cfg && wfFields cfg

/-! ### Closed forms of the merge, used by the proofs -/

/-- The entrywise effect of `_deep_merge` on the target's entries. -/
def mergeInto (s t : List (String × JValue)) : List (String × JValue) :=
  t.map (fun p =>
    match lookupField s p.1 with
    | some sv => (p.1, merge_value p.1 p.2 sv)
    | none => p)

/-- Closed form of `_deep_merge`: target entries merged entrywise, then the
source entries whose keys are new, in order. -/
def mergeFields (t s : List (String × JValue)) : List (String × JValue) :=
  mergeInto s t ++ s.filter (fun p => (lookupField t p.1).isNone)

/-- The effect of `_merge_list_by_id` on one target element: a dict whose id
has a matching source dict is deep-merged with it. -/
def mergeItemElem (s : List JValue) (e : JValue) : JValue :=
  match e with
  | .obj tf =>
      match lookupField tf "id" with
      | some i =>
          match findItemById i s with
          | some sf => .obj (deep_merge tf sf)
          | none => e
      | none => e
  | _ => e

/-- The entrywise effect of `_merge_list_by_id` on the target's elements. -/
def mergeItemsInto (s t : List JValue) : List JValue :=
  t.map (mergeItemElem s)

/-- The source dicts whose ids are new to the target. -/
def newItemsFilter (t s : List JValue) : List JValue :=
  s.filter (fun e =>
    match getId e with
    | some i => ! hasIdB i t
    | none => false)

/-- Closed form of `_merge_list_by_id`: target elements merged elementwise,
then the source dicts carrying new ids, in order. -/
def mergeItemsSpec (t s : List JValue) : List JValue :=
  mergeItemsInto s t ++ newItemsFilter t s

/-! ### Sample configuration documents

The repository ships no default configuration document (it is loaded from
`env.default_config_path` at runtime), so the concrete merge example uses a
representative relay list shaped after the `RelayConfig` model
(app/core/models/config_models.py: id, name, enabled, pulse_time). -/

/-- A relay element of the default document, with the given id and
pulse time. -/
def sampleRelay (n : String) (pt : Int) : JValue :=
  .obj [("id", .str n), ("name", .str n), ("enabled", .bool true),
    ("pulse_time", .num pt)]

/-- A representative default `relays` list: six relays, pulse time 5. -/
def sample_default_relays : List JValue :=
  [sampleRelay "relay_1" 5, sampleRelay "relay_2" 5, sampleRelay "relay_3" 5,
   sampleRelay "relay_4" 5, sampleRelay "relay_5" 5, sampleRelay "relay_6" 5]

/-- The custom patch `relays=[{id:"relay_2", pulse_time:9}]`. -/
def custom_relay2_patch : List JValue :=
  [.obj [("id", .str "relay_2"), ("pulse_time", .num 9)]]

/-! ## Theorems -/

/-- C1: for both polarities the logical/hardware translations are mutually
inverse (normally-open: ON↦ACTIVE, OFF↦INACTIVE; normally-closed: ON↦INACTIVE,
OFF↦ACTIVE), and `turn_on` followed by reading the state returns logical 1
while `turn_off` followed by reading returns logical 0, whatever the pin
level was before. -/
theorem relay_polarity_correct (normally : String)
    (hpol : normally = "open" ∨ normally = "closed") :
    (logical_to_hardware_value "open" 1 = .ok .ACTIVE ∧
     logical_to_hardware_value "open" 0 = .ok .INACTIVE ∧
     logical_to_hardware_value "closed" 1 = .ok .INACTIVE ∧
     logical_to_hardware_value "closed" 0 = .ok .ACTIVE) ∧
    (∀ s : Nat, s = 0 ∨ s = 1 →
      (logical_to_hardware_value normally s).bind
        (fun v => hardware_to_logical_state normally v) = .ok s) ∧
    (∀ v : GpioValue,
      (hardware_to_logical_state normally v).bind
        (fun s => logical_to_hardware_value normally s) = .ok v) ∧
    (∀ hw : GpioValue, ∃ hw' : GpioValue,
      turn_on normally hw = .ok (hw', { status := "success", state := 1 }) ∧
      get_current_state normally hw' = .ok 1) ∧
    (∀ hw : GpioValue, ∃ hw' : GpioValue,
      turn_off normally hw = .ok (hw', { status := "success", state := 0 }) ∧
      get_current_state normally hw' = .ok 0) := by
  rcases hpol with h | h <;> subst h
  · refine ⟨⟨rfl, rfl, rfl, rfl⟩, ?_, ?_, ?_, ?_⟩
    · rintro s (rfl | rfl) <;> rfl
    · intro v; cases v <;> rfl
    · intro hw; exact ⟨.ACTIVE, rfl, rfl⟩
    · intro hw; exact ⟨.INACTIVE, rfl, rfl⟩
  · refine ⟨⟨rfl, rfl, rfl, rfl⟩, ?_, ?_, ?_, ?_⟩
    · rintro s (rfl | rfl) <;> rfl
    · intro v; cases v <;> rfl
    · intro hw; exact ⟨.INACTIVE, rfl, rfl⟩
    · intro hw; exact ⟨.ACTIVE, rfl, rfl⟩

/-- Witness for `relay_polarity_correct` at a normally-closed relay. -/
theorem relay_polarity_correct_witness :
    ∃ hw' : GpioValue,
      turn_on "closed" GpioValue.ACTIVE =
        .ok (hw', { status := "success", state := 1 }) ∧
      get_current_state "closed" hw' = .ok 1 := by
  exact (relay_polarity_correct "closed" (Or.inr rfl)).2.2.2.1 GpioValue.ACTIVE

/-- C4: `pulse_relay` immediately toggles the logical state, schedules exactly
one reverse toggle whose countdown is the requested duration, and running that
scheduled `set_relay_state` restores the pre-pulse logical state. -/
theorem pulse_restores_state (normally : String)
    (hpol : normally = "open" ∨ normally = "closed")
    (hw : GpioValue) (d : Rat) :
    ∃ hw1 res1 sched hw2 res2,
      pulse_relay normally hw d = .ok (hw1, res1, sched) ∧
      sched.countdown = d ∧
      get_current_state normally hw1 =
        (get_current_state normally hw).map (fun s => 1 - s) ∧
      set_relay_state normally hw1 sched.target_on = .ok (hw2, res2) ∧
      res2.status = "success" ∧
      get_current_state normally hw2 = get_current_state normally hw := by
  rcases hpol with h | h <;> subst h <;> cases hw
  · exact ⟨.ACTIVE, { status := "success", state := 1 },
      { target_on := false, countdown := d }, .INACTIVE,
      { status := "success", state := 0 }, rfl, rfl, rfl, rfl, rfl, rfl⟩
  · exact ⟨.INACTIVE, { status := "success", state := 0 },
      { target_on := true, countdown := d }, .ACTIVE,
      { status := "success", state := 1 }, rfl, rfl, rfl, rfl, rfl, rfl⟩
  · exact ⟨.ACTIVE, { status := "success", state := 0 },
      { target_on := true, countdown := d }, .INACTIVE,
      { status := "success", state := 1 }, rfl, rfl, rfl, rfl, rfl, rfl⟩
  · exact ⟨.INACTIVE, { status := "success", state := 1 },
      { target_on := false, countdown := d }, .ACTIVE,
      { status := "success", state := 0 }, rfl, rfl, rfl, rfl, rfl, rfl⟩

/-- Witness for `pulse_restores_state` on a normally-open relay that is OFF,
pulsed for 5 seconds. -/
theorem pulse_restores_state_witness :
    ∃ hw1 res1 sched hw2 res2,
      pulse_relay "open" .INACTIVE 5 = .ok (hw1, res1, sched) ∧
      sched.countdown = 5 ∧
      get_current_state "open" hw1 =
        (get_current_state "open" .INACTIVE).map (fun s => 1 - s) ∧
      set_relay_state "open" hw1 sched.target_on = .ok (hw2, res2) ∧
      res2.status = "success" ∧
      get_current_state "open" hw2 = get_current_state "open" .INACTIVE :=
  pulse_restores_state "open" (Or.inl rfl) .INACTIVE 5

/-- C10: the hardware map holds exactly relay_1 … relay_6 and no entry for
`main`; constructing a controller for `main` raises the "No configuration
found" ValueError, and every task-layer operation on an unconfigured id
returns an error result and leaves the hardware untouched. -/
theorem main_relay_unconfigured :
    HARDWARE_CONFIG.map Prod.fst =
      ["relay_1", "relay_2", "relay_3", "relay_4", "relay_5", "relay_6"] ∧
    get_hardware_info "main" = none ∧
    relay_control_init "main" = .error "No configuration found for relay main" ∧
    ∀ relay_id, get_hardware_info relay_id = none →
      ∀ hw : String → GpioValue,
        get_relay_state_task hw relay_id = { status := "error", state := none } ∧
        (∀ b, set_relay_state_task hw relay_id b =
          (hw, { status := "error", state := none })) ∧
        (∀ d, pulse_relay_task hw relay_id d =
          (hw, { status := "error", state := none }, none)) ∧
        (∀ name pt sched ct wd, sched.enabled = true →
          check_schedule_relay hw
            { id := relay_id, name := name, enabled := true,
              pulse_time := pt, schedule := some sched } ct wd =
            (hw, .errored, none)) := by
  refine ⟨rfl, rfl, rfl, ?_⟩
  intro relay_id h hw
  refine ⟨?_, ?_, ?_, ?_⟩
  · simp [get_relay_state_task, relay_control_init, h]
  · intro b; simp [set_relay_state_task, relay_control_init, h]
  · intro d; simp [pulse_relay_task, relay_control_init, h]
  · intro name pt sched ct wd hs
    simp [check_schedule_relay, relay_control_init, h, hs]

/-- Witness for `main_relay_unconfigured` at relay id "main". -/
theorem main_relay_unconfigured_witness :
    get_relay_state_task (fun _ => .INACTIVE) "main" =
      { status := "error", state := none } ∧
    set_relay_state_task (fun _ => .INACTIVE) "main" true =
      ((fun _ => .INACTIVE), { status := "error", state := none }) := by
  have h := main_relay_unconfigured.2.2.2 "main" rfl (fun _ => .INACTIVE)
  exact ⟨h.1, h.2.1 true⟩

/-- C2: rule evaluation is edge-triggered. For a sample containing the
rule's field: on the false→true edge of the predicate the latch is set with a
triggered timestamp and every action is dispatched; on the true→false edge
the latch is cleared with a cleared timestamp and nothing is dispatched;
otherwise nothing changes. Feeding a `> 10` rule the value sequence
[9, 10, 11, 12, 11, 9, 8, 11] dispatches its action exactly twice, at the
first 11 and at the final 11. -/
theorem rule_edge_triggered :
    (∀ (store : RuleStore) (now : Nat) (data : List (String × Rat))
       (task : RuleTask) (value : Rat),
      data.lookup task.field = some value →
      (evaluate_condition value task.operator task.value = true →
        get_rule_state store task.id = false →
        evaluate_rule_step store now data task =
          (set_rule_state store task.id true now,
           task.actions.map (fun a =>
             { task_id := task.id, task_name := task.name, action := a })) ∧
        (set_rule_state store task.id true now).state task.id = true ∧
        (set_rule_state store task.id true now).triggered task.id = some now) ∧
      (evaluate_condition value task.operator task.value = false →
        get_rule_state store task.id = true →
        evaluate_rule_step store now data task =
          (set_rule_state store task.id false now, []) ∧
        (set_rule_state store task.id false now).state task.id = false ∧
        (set_rule_state store task.id false now).cleared task.id = some now) ∧
      (evaluate_condition value task.operator task.value =
          get_rule_state store task.id →
        evaluate_rule_step store now data task = (store, []))) ∧
    (run_rule_samples emptyRuleStore 0 "env"
      [{ id := "r1", name := "High", source := "env", field := "f",
         operator := ">", value := 10,
         actions := [{ type := "io", target := some "relay_6",
                       state := some "on", message := none }] }]
      [[("f", 9)], [("f", 10)], [("f", 11)], [("f", 12)], [("f", 11)],
       [("f", 9)], [("f", 8)], [("f", 11)]]).2 =
      [0, 0, 1, 0, 0, 0, 0, 1] := by
  refine ⟨?_, by decide⟩
  intro store now data task value hv
  refine ⟨?_, ?_, ?_⟩
  · intro hc hp
    refine ⟨?_, ?_, ?_⟩
    · simp [evaluate_rule_step, hv, hc, hp]
    · simp [set_rule_state]
    · simp [set_rule_state]
  · intro hc hp
    refine ⟨?_, ?_, ?_⟩
    · simp [evaluate_rule_step, hv, hc, hp]
    · simp [set_rule_state]
    · simp [set_rule_state]
  · intro hcp
    cases hc : evaluate_condition value task.operator task.value <;>
      rw [hc] at hcp <;>
      simp [evaluate_rule_step, hv, hc, ← hcp]

/-- Witness for `rule_edge_triggered`: the triggering edge at a concrete
store, sample and rule. -/
theorem rule_edge_triggered_witness :
    (evaluate_rule_step emptyRuleStore 3 [("f", (11 : Rat))]
      { id := "r1", name := "High", source := "env", field := "f",
        operator := ">", value := 10, actions := [] } =
      (set_rule_state emptyRuleStore "r1" true 3, [])) ∧
    (set_rule_state emptyRuleStore "r1" true 3).state "r1" = true := by
  have h := (rule_edge_triggered.1 emptyRuleStore 3 [("f", (11 : Rat))]
    { id := "r1", name := "High", source := "env", field := "f",
      operator := ">", value := 10, actions := [] } 11 (by decide)).1
    (by decide) rfl
  exact ⟨by simpa using h.1, h.2.1⟩

/-- Counterexample to C7: drive the breaker open with 5 connection failures
at time 0, then flush at time 61 with a FAILING probe — the breaker
nevertheless returns to CLOSED (circuit_open = false, failure_count = 1),
so it does not return to CLOSED "only upon a single successful probe".
Moreover five consecutive batch-write failures (ping fine, write failing)
never open the breaker at all. -/
theorem breaker_counterexample :
    ((fun t => handle_connection_failure t 0)^[5]
      { failure_count := 0, last_failure_time := 0, circuit_open := false
        : BreakerState }).circuit_open = true ∧
    (flush_internal
      ((fun t => handle_connection_failure t 0)^[5]
        { failure_count := 0, last_failure_time := 0, circuit_open := false })
      [1] 61 false false) =
      ({ failure_count := 1, last_failure_time := 61, circuit_open := false },
       [], false, true) ∧
    (flush_internal
      ((flush_internal
        ((flush_internal
          ((flush_internal
            ((flush_internal
              { failure_count := 0, last_failure_time := 0, circuit_open := false }
              [1] 10 true false).1)
            [2] 20 true false).1)
          [3] 30 true false).1)
        [4] 40 true false).1)
      [5] 50 true false).1 =
      { failure_count := 0, last_failure_time := 0, circuit_open := false } := by
  refine ⟨by decide, by decide, by decide⟩

/-- C7 as amended: only connection failures (failed pings or exceptions while
obtaining a client) feed the breaker; after 5 such consecutive failures it is
OPEN and every flush within `reset_timeout` = 60 s of the last failure drops
its batch without contacting the store. Once more than 60 s have elapsed, the
next client request closes the breaker and resets the count to zero *before*
probing: a successful probe leaves it closed with count 0, a failed probe
leaves it closed with count 1. A successful probe from a closed breaker
resets the failure count, and a batch-write failure after a successful probe
loses the batch but leaves the breaker untouched. -/
theorem breaker_amended :
    (∀ (s : BreakerState) (now : Int), s.circuit_open = false →
      s.failure_count = 0 →
      ((fun t => handle_connection_failure t now)^[5] s) =
        { failure_count := 5, last_failure_time := now, circuit_open := true }) ∧
    (∀ (s : BreakerState) (buffer : List Nat) (now : Int) (p w : Bool),
      s.circuit_open = true → now - s.last_failure_time ≤ reset_timeout →
      buffer ≠ [] →
      flush_internal s buffer now p w = (s, [], false, false)) ∧
    (∀ (s : BreakerState) (now : Int) (p : Bool), s.circuit_open = true →
      now - s.last_failure_time > reset_timeout →
      (get_client s now p).1.circuit_open = false ∧
      (get_client s now p).1.failure_count = if p then 0 else 1) ∧
    (∀ (s : BreakerState) (now : Int), s.circuit_open = false →
      get_client s now true = ({ s with failure_count := 0 }, true, true)) ∧
    (∀ (s : BreakerState) (buffer : List Nat) (now : Int) (w : Bool),
      s.circuit_open = false → buffer ≠ [] →
      flush_internal s buffer now true w =
        ({ s with failure_count := 0 }, [], w, true)) := by
  refine ⟨?_, ?_, ?_, ?_, ?_⟩
  · rintro ⟨c, l, o⟩ now ho hc
    simp only at ho hc
    subst ho; subst hc
    rfl
  · intro s buffer now p w ho hle hne
    have hbuf : buffer.isEmpty = false := by
      cases buffer with
      | nil => exact absurd rfl hne
      | cons a t => rfl
    have hgt : ¬ (now - s.last_failure_time > reset_timeout) := by omega
    simp [flush_internal, hbuf, get_client, ho, hgt]
  · intro s now p ho hgt
    cases p <;>
      simp [get_client, ho, hgt, handle_connection_failure, failure_threshold]
  · intro s now ho
    simp [get_client, ho]
  · intro s buffer now w ho hne
    have hbuf : buffer.isEmpty = false := by
      cases buffer with
      | nil => exact absurd rfl hne
      | cons a t => rfl
    simp [flush_internal, hbuf, get_client, ho]

/-- Witness for `breaker_amended`: the open breaker drops a batch within the
60 s window without contacting the store. -/
theorem breaker_amended_witness :
    flush_internal
      { failure_count := 5, last_failure_time := 100, circuit_open := true }
      [7] 130 true true =
      ({ failure_count := 5, last_failure_time := 100, circuit_open := true },
       [], false, false) :=
  breaker_amended.2.1
    { failure_count := 5, last_failure_time := 100, circuit_open := true }
    [7] 130 true true rfl (by decide) (by decide)

/-- Counterexample to C9: there is no per-sensor failure counter — a single
failed read (timeout) already flips the health flag to unhealthy, not three:
from a healthy state, one timeout leaves `get_sensor_health` reporting
false for the sensor. -/
theorem sensor_single_failure_marks_unhealthy :
    get_sensor_health
      { sensor_health := [("ina260_relay_1", true)],
        last_successful_reads := [], latest_samples := [] } =
      [("ina260_relay_1", true)] ∧
    get_sensor_health
      ((read_relay_sensor
        { sensor_health := [("ina260_relay_1", true)],
          last_successful_reads := [], latest_samples := [] }
        "relay_1" 0 .timeout).1) =
      [("ina260_relay_1", false)] := by
  exact ⟨rfl, by decide⟩

/-- C9 as amended: a failed sensor read is isolated — it leaves the
latest-sample cache and the last-successful-read map unchanged and dispatches
no rule evaluation; a timeout or an exception immediately (after a single
failure, there is no counter) marks the sensor unhealthy, while an
initialization failure or incomplete data leaves the whole state unchanged;
any successful read sets the health flag back to healthy, updates the cache
for the source, and dispatches rule evaluation. -/
theorem sensor_failure_isolated (st : CollectorState) (relay_id : String)
    (now : Nat) :
    (∀ outcome, outcome = ReadOutcome.timeout ∨
        (∃ msg, outcome = ReadOutcome.failure msg) →
      read_relay_sensor st relay_id now outcome =
        ({ st with sensor_health :=
            dictSet st.sensor_health ("ina260_" ++ relay_id) false },
         false, none)) ∧
    (read_relay_sensor st relay_id now .init_failure = (st, false, none)) ∧
    (read_relay_sensor st relay_id now .incomplete = (st, false, none)) ∧
    (∀ v c p, read_relay_sensor st relay_id now (.ok v c p) =
      ({ st with
          latest_samples := dictSet st.latest_samples ("relay_" ++ relay_id)
            [("voltage", v), ("current", c), ("power", p)],
          sensor_health := dictSet st.sensor_health ("ina260_" ++ relay_id) true,
          last_successful_reads :=
            dictSet st.last_successful_reads ("ina260_" ++ relay_id) now },
       true, some (relay_id, [("volts", v), ("amps", c), ("watts", p)]))) := by
  refine ⟨?_, rfl, rfl, fun v c p => rfl⟩
  rintro outcome (rfl | ⟨msg, rfl⟩) <;> rfl

/-- Witness for `sensor_failure_isolated`: one timeout on relay_1. -/
theorem sensor_failure_isolated_witness :
    read_relay_sensor
      { sensor_health := [], last_successful_reads := [], latest_samples := [] }
      "relay_1" 4 .timeout =
      ({ sensor_health := [("ina260_relay_1", false)],
         last_successful_reads := [], latest_samples := [] },
       false, none) := by
  have h := (sensor_failure_isolated
    { sensor_health := [], last_successful_reads := [], latest_samples := [] }
    "relay_1" 4).1 .timeout (Or.inl rfl)
  simpa using h

/-- The ten digit characters have the expected code points. -/
theorem digitChar_toNat (d : Nat) (hd : d < 10) :
    (Nat.digitChar d).toNat = 48 + d := by
  interval_cases d <;> rfl

/-- A rendered "HH:MM" string is never empty. -/
theorem toHHMM_ne_empty (h m : Nat) : toHHMM h m ≠ "" := by
  simp [toHHMM, String.ext_iff]

/-- Unfolding step of the lexicographic comparison. -/
theorem pyStrLtAux_cons (a b : Char) (as bs : List Char) :
    pyStrLtAux (a :: as) (b :: bs) =
      (if a.toNat < b.toNat then true
       else if b.toNat < a.toNat then false
       else pyStrLtAux as bs) := rfl

/-- Base case of the lexicographic comparison. -/
theorem pyStrLtAux_nil : pyStrLtAux [] [] = false := rfl

set_option maxHeartbeats 2000000 in
/-- Python string comparison on zero-padded "HH:MM" strings agrees with
comparison of minutes since midnight. -/
theorem pyStrLt_toHHMM (h1 m1 h2 m2 : Nat) (hh1 : h1 < 24) (hm1 : m1 < 60)
    (hh2 : h2 < 24) (hm2 : m2 < 60) :
    (pyStrLt (toHHMM h1 m1) (toHHMM h2 m2) = true ↔
      h1 * 60 + m1 < h2 * 60 + m2) := by
  have e1 := digitChar_toNat (h1 / 10) (by omega)
  have e2 := digitChar_toNat (h1 % 10) (by omega)
  have e3 := digitChar_toNat (m1 / 10) (by omega)
  have e4 := digitChar_toNat (m1 % 10) (by omega)
  have f1 := digitChar_toNat (h2 / 10) (by omega)
  have f2 := digitChar_toNat (h2 % 10) (by omega)
  have f3 := digitChar_toNat (m2 / 10) (by omega)
  have f4 := digitChar_toNat (m2 % 10) (by omega)
  have hrepr : pyStrLt (toHHMM h1 m1) (toHHMM h2 m2) = pyStrLtAux
      [Nat.digitChar (h1 / 10), Nat.digitChar (h1 % 10), ':',
       Nat.digitChar (m1 / 10), Nat.digitChar (m1 % 10)]
      [Nat.digitChar (h2 / 10), Nat.digitChar (h2 % 10), ':',
       Nat.digitChar (m2 / 10), Nat.digitChar (m2 % 10)] := rfl
  have hcolon : (':' : Char).toNat = 58 := rfl
  rw [hrepr, pyStrLtAux_cons, pyStrLtAux_cons, pyStrLtAux_cons,
    pyStrLtAux_cons, pyStrLtAux_cons, pyStrLtAux_nil,
    e1, e2, e3, e4, f1, f2, f3, f4, hcolon]
  split_ifs <;>
    simp only [eq_self_iff_true, true_iff, Bool.false_eq_true, false_iff,
      not_lt] <;> omega

/-- The `<=` counterpart of `pyStrLt_toHHMM`. -/
theorem pyStrLe_toHHMM (h1 m1 h2 m2 : Nat) (hh1 : h1 < 24) (hm1 : m1 < 60)
    (hh2 : h2 < 24) (hm2 : m2 < 60) :
    (pyStrLe (toHHMM h1 m1) (toHHMM h2 m2) = true ↔
      h1 * 60 + m1 ≤ h2 * 60 + m2) := by
  have := pyStrLt_toHHMM h2 m2 h1 m1 hh2 hm2 hh1 hm1
  simp only [pyStrLe, Bool.not_eq_true']
  constructor
  · intro h
    rcases Nat.lt_or_ge (h2 * 60 + m2) (h1 * 60 + m1) with hlt | hge
    · exact absurd (this.2 hlt) (by simp [h])
    · omega
  · intro h
    cases hb : pyStrLt (toHHMM h2 m2) (toHHMM h1 m1)
    · rfl
    · exact absurd (this.1 hb) (by omega)

/-- The name-table day-bit lookup of `_should_be_on` agrees with the
documented fixed weekday-bit mapping. -/
theorem day_bitmask_spec (wd : Nat) (hwd : wd < 7) :
    DAY_BITMASK (day_names.getD wd "") = weekday_bit_spec wd := by
  interval_cases wd <;> rfl

/-- C3: for an enabled schedule, `should_be_on` holds exactly when today's
weekday bit (Sunday=2, Monday=4, …, Saturday=128) is set in `days_mask` and
the current wall time lies in `[on_time, off_time)` for `on_time ≤ off_time`,
or in `[on_time, 24:00) ∪ [00:00, off_time)` for a window crossing midnight;
in particular with on_time 22:00, off_time 06:00 and a Monday–Friday mask it
holds at Monday 23:00 and Tuesday 05:00 and fails at Saturday 23:00 and
Monday 06:00. -/
theorem schedule_should_be_on_iff :
    (∀ (s : RelaySchedule) (oh om fh fm ch cm wd : Nat),
      s.enabled = true →
      s.on_time = some (toHHMM oh om) → s.off_time = some (toHHMM fh fm) →
      oh < 24 → om < 60 → fh < 24 → fm < 60 → ch < 24 → cm < 60 → wd < 7 →
      (should_be_on (some s) (toHHMM ch cm) wd = true ↔
        (s.days_mask &&& weekday_bit_spec wd ≠ 0 ∧
         schedule_window_spec (oh * 60 + om) (fh * 60 + fm) (ch * 60 + cm)))) ∧
    (should_be_on
        (some { enabled := true, on_time := some "22:00",
                off_time := some "06:00", days_mask := 124 }) "23:00" 0 = true ∧
     should_be_on
        (some { enabled := true, on_time := some "22:00",
                off_time := some "06:00", days_mask := 124 }) "05:00" 1 = true ∧
     should_be_on
        (some { enabled := true, on_time := some "22:00",
                off_time := some "06:00", days_mask := 124 }) "23:00" 5 = false ∧
     should_be_on
        (some { enabled := true, on_time := some "22:00",
                off_time := some "06:00", days_mask := 124 }) "06:00" 0 = false) := by
  constructor
  · intro s oh om fh fm ch cm wd hen hon hoff hoh hom hfh hfm hch hcm hwd
    have hbit := day_bitmask_spec wd hwd
    have hlt := pyStrLt_toHHMM fh fm oh om hfh hfm hoh hom
    have hle1 := pyStrLe_toHHMM oh om ch cm hoh hom hch hcm
    have hlt2 := pyStrLt_toHHMM ch cm fh fm hch hcm hfh hfm
    simp only [should_be_on, hen, Bool.not_true, Bool.false_eq_true,
      if_false, hon, hoff, toHHMM_ne_empty, if_neg, hbit]
    by_cases hm : s.days_mask &&& weekday_bit_spec wd = 0
    · simp [hm]
    · rw [if_neg hm]
      unfold schedule_window_spec
      cases hb : pyStrLt (toHHMM fh fm) (toHHMM oh om)
      · have honoff : oh * 60 + om ≤ fh * 60 + fm := by
          rcases Nat.lt_or_ge (fh * 60 + fm) (oh * 60 + om) with hc | hc
          · exact absurd (hlt.2 hc) (by simp [hb])
          · omega
        rw [if_pos honoff]
        simp [hb, Bool.and_eq_true, hle1, hlt2, hm]
      · have honoff : ¬ (oh * 60 + om ≤ fh * 60 + fm) := by
          have := hlt.1 hb
          omega
        rw [if_neg honoff]
        simp [hb, Bool.or_eq_true, hle1, hlt2, hm]
  · exact ⟨by decide, by decide, by decide, by decide⟩

/-- Witness for `schedule_should_be_on_iff`: the midnight-crossing window at
Monday 23:00. -/
theorem schedule_should_be_on_iff_witness :
    (should_be_on
        (some { enabled := true, on_time := some (toHHMM 22 0),
                off_time := some (toHHMM 6 0), days_mask := 124 })
        (toHHMM 23 0) 0 = true ↔
      ((124 : Nat) &&& weekday_bit_spec 0 ≠ 0 ∧
       schedule_window_spec (22 * 60 + 0) (6 * 60 + 0) (23 * 60 + 0))) :=
  schedule_should_be_on_iff.1
    { enabled := true, on_time := some (toHHMM 22 0),
      off_time := some (toHHMM 6 0), days_mask := 124 }
    22 0 6 0 23 0 0 rfl rfl rfl (by omega) (by omega) (by omega) (by omega)
    (by omega) (by omega) (by omega)

/-! ### Association-list lemmas for the merge proofs -/

/-- `setField` at a different key does not change a lookup. -/
theorem lookupField_setField_ne (t : List (String × JValue)) (k k2 : String)
    (nv : JValue) (h : k2 ≠ k) :
    lookupField (setField t k nv) k2 = lookupField t k2 := by
  induction t with
  | nil => rfl
  | cons p rest ih =>
      obtain ⟨k1, v1⟩ := p
      by_cases h1 : k1 = k
      · subst h1
        simp only [setField, if_pos rfl, lookupField]
        rw [if_neg (fun hc => h (hc.symm)), if_neg (fun hc => h (hc.symm))]
      · simp only [setField, if_neg h1, lookupField]
        by_cases h2 : k1 = k2
        · rw [if_pos h2, if_pos h2]
        · rw [if_neg h2, if_neg h2, ih]

/-- `setField` on a present key makes the lookup return the new value. -/
theorem lookupField_setField_self (t : List (String × JValue)) (k : String)
    (tv nv : JValue) (h : lookupField t k = some tv) :
    lookupField (setField t k nv) k = some nv := by
  induction t with
  | nil => simp [lookupField] at h
  | cons p rest ih =>
      obtain ⟨k1, v1⟩ := p
      by_cases h1 : k1 = k
      · subst h1
        simp [setField, lookupField]
      · simp only [lookupField, if_neg h1] at h
        simp only [setField, if_neg h1, lookupField, if_neg h1]
        exact ih h

/-- `setField` does not change which keys are present. -/
theorem lookupField_setField_isNone (t : List (String × JValue)) (k k2 : String)
    (nv : JValue) :
    (lookupField (setField t k nv) k2).isNone = (lookupField t k2).isNone := by
  induction t with
  | nil => rfl
  | cons p rest ih =>
      obtain ⟨k1, v1⟩ := p
      by_cases h1 : k1 = k
      · subst h1
        simp only [setField, if_pos rfl, lookupField]
        by_cases h2 : k1 = k2 <;> simp [h2]
      · simp only [setField, if_neg h1, lookupField]
        by_cases h2 : k1 = k2 <;> simp [h2, ih]

/-- `setField` preserves key uniqueness. -/
theorem keysNodup_setField (t : List (String × JValue)) (k : String)
    (nv : JValue) : keysNodup (setField t k nv) = keysNodup t := by
  induction t with
  | nil => rfl
  | cons p rest ih =>
      obtain ⟨k1, v1⟩ := p
      by_cases h1 : k1 = k
      · subst h1
        simp [setField, keysNodup]
      · simp [setField, h1, keysNodup, ih, lookupField_setField_isNone]

/-- Lookup in an appended list: first list wins. -/
theorem lookupField_append (t1 t2 : List (String × JValue)) (k : String) :
    lookupField (t1 ++ t2) k =
      (match lookupField t1 k with
       | some v => some v
       | none => lookupField t2 k) := by
  induction t1 with
  | nil => rfl
  | cons p rest ih =>
      obtain ⟨k1, v1⟩ := p
      by_cases h1 : k1 = k <;> simp [lookupField, h1, ih]

/-- Appending an entry with a fresh key preserves key uniqueness. -/
theorem keysNodup_append_single (t : List (String × JValue)) (k : String)
    (v : JValue) (hk : lookupField t k = none) (hn : keysNodup t = true) :
    keysNodup (t ++ [(k, v)]) = true := by
  induction t with
  | nil => simp [keysNodup, lookupField]
  | cons p rest ih =>
      obtain ⟨k1, v1⟩ := p
      simp only [lookupField] at hk
      by_cases h1 : k1 = k
      · rw [if_pos h1] at hk; exact absurd hk (by simp)
      · rw [if_neg h1] at hk
        simp only [keysNodup, Bool.and_eq_true] at hn
        simp only [List.cons_append, keysNodup, Bool.and_eq_true]
        refine ⟨?_, ih hk hn.2⟩
        simp only [List.append_eq] at *
        rw [lookupField_append]
        have h2 : lookupField [(k, v)] k1 = none := by
          have hne : ¬ k = k1 := fun hc => h1 hc.symm
          simp [lookupField, hne]
        rcases hl : lookupField rest k1 with _ | w
        · simp [h2]
        · have := hn.1
          rw [hl] at this
          exact absurd this (by simp)

/-- A present entry makes the lookup succeed. -/
theorem lookupField_isSome_of_mem (t : List (String × JValue)) (k : String)
    (v : JValue) (h : (k, v) ∈ t) : (lookupField t k).isSome = true := by
  induction t with
  | nil => simp at h
  | cons p rest ih =>
      obtain ⟨k1, v1⟩ := p
      rcases List.mem_cons.1 h with h0 | h0
      · have hk : k = k1 := congrArg Prod.fst h0
        have hv : v = v1 := congrArg Prod.snd h0
        subst hk; subst hv
        simp [lookupField]
      · by_cases h1 : k1 = k <;> simp [lookupField, h1, ih h0]

/-- With unique keys, the lookup of a member returns its value. -/
theorem lookupField_of_mem_nodup (t : List (String × JValue)) (k : String)
    (v : JValue) (hn : keysNodup t = true) (h : (k, v) ∈ t) :
    lookupField t k = some v := by
  induction t with
  | nil => simp at h
  | cons p rest ih =>
      obtain ⟨k1, v1⟩ := p
      simp only [keysNodup, Bool.and_eq_true] at hn
      rcases List.mem_cons.1 h with h0 | h0
      · have hk : k = k1 := congrArg Prod.fst h0
        have hv : v = v1 := congrArg Prod.snd h0
        subst hk; subst hv
        simp [lookupField]
      · by_cases h1 : k1 = k
        · have hs := lookupField_isSome_of_mem rest k v h0
          have hn1 := hn.1
          rw [h1] at hn1
          rw [Option.isNone_iff_eq_none.1 hn1] at hs
          simp at hs
        · simp only [lookupField, if_neg h1]
          exact ih hn.2 h0

/-- A looked-up entry is a member. -/
theorem mem_of_lookupField (t : List (String × JValue)) (k : String)
    (v : JValue) (h : lookupField t k = some v) : (k, v) ∈ t := by
  induction t with
  | nil => simp [lookupField] at h
  | cons p rest ih =>
      obtain ⟨k1, v1⟩ := p
      by_cases h1 : k1 = k
      · subst h1
        simp only [lookupField, if_pos rfl] at h
        injection h with h
        subst h
        exact List.mem_cons_self _ _
      · simp only [lookupField, if_neg h1] at h
        exact List.mem_cons_of_mem _ (ih h)

/-- Values of a well-formed object are well-formed. -/
theorem wfV_of_mem_wfFields (t : List (String × JValue)) (k : String)
    (v : JValue) (hw : wfFields t = true) (h : (k, v) ∈ t) : wfV v = true := by
  induction t with
  | nil => simp at h
  | cons p rest ih =>
      obtain ⟨k1, v1⟩ := p
      simp only [wfFields, Bool.and_eq_true] at hw
      rcases List.mem_cons.1 h with h0 | h0
      · have hv : v = v1 := congrArg Prod.snd h0
        subst hv
        exact hw.1
      · exact ih hw.2 h0

/-- A looked-up value of a well-formed object is well-formed. -/
theorem wfV_of_lookupField (t : List (String × JValue)) (k : String)
    (v : JValue) (hw : wfFields t = true) (h : lookupField t k = some v) :
    wfV v = true :=
  wfV_of_mem_wfFields t k v hw (mem_of_lookupField t k v h)

/-- Elements of a well-formed array are well-formed. -/
theorem wfV_of_mem_wfList (l : List JValue) (e : JValue)
    (hw : wfList l = true) (h : e ∈ l) : wfV e = true := by
  induction l with
  | nil => simp at h
  | cons x rest ih =>
      simp only [wfList, Bool.and_eq_true] at hw
      rcases List.mem_cons.1 h with h0 | h0
      · subst h0; exact hw.1
      · exact ih hw.2 h0

/-- Merging an empty source entrywise is the identity. -/
theorem mergeInto_nil (t : List (String × JValue)) : mergeInto [] t = t := by
  exact List.map_id'' (fun p => rfl) t

/-- An entry whose key is absent from the target contributes nothing to the
entrywise merge. -/
theorem mergeInto_cons_notmem (k : String) (v : JValue)
    (s t : List (String × JValue)) (h : lookupField t k = none) :
    mergeInto ((k, v) :: s) t = mergeInto s t := by
  apply List.map_congr_left
  intro p hp
  have hpk : ¬ k = p.1 := by
    intro hc
    have hm : (p.1, p.2) ∈ t := by simpa using hp
    have := lookupField_isSome_of_mem t p.1 p.2 hm
    rw [← hc, h] at this
    simp at this
  simp only [lookupField, if_neg hpk]

/-- Unfolding of the entrywise merge on a cons target. -/
theorem mergeInto_cons_target (s : List (String × JValue))
    (p : String × JValue) (t : List (String × JValue)) :
    mergeInto s (p :: t) =
      (match lookupField s p.1 with
       | some sv => (p.1, merge_value p.1 p.2 sv)
       | none => p) :: mergeInto s t := rfl

/-- Entrywise merging after an in-place update of one key is the entrywise
merge with that entry prepended to the source. -/
theorem mergeInto_setField (t rest : List (String × JValue)) (k : String)
    (tv v : JValue) (hn : keysNodup t = true) (hl : lookupField t k = some tv)
    (hr : lookupField rest k = none) :
    mergeInto rest (setField t k (merge_value k tv v)) =
      mergeInto ((k, v) :: rest) t := by
  induction t with
  | nil => simp [lookupField] at hl
  | cons p t' ih =>
      obtain ⟨k1, v1⟩ := p
      simp only [keysNodup, Bool.and_eq_true] at hn
      by_cases h1 : k1 = k
      · subst h1
        simp only [lookupField, if_pos rfl] at hl
        injection hl with hl'
        subst hl'
        have ht' : lookupField t' k1 = none := Option.isNone_iff_eq_none.1 hn.1
        rw [show setField ((k1, v1) :: t') k1 (merge_value k1 v1 v) =
            (k1, merge_value k1 v1 v) :: t' from by simp [setField]]
        rw [mergeInto_cons_target, mergeInto_cons_target,
          mergeInto_cons_notmem k1 v rest t' ht']
        congr 1
        simp [lookupField, hr]
      · simp only [lookupField, if_neg h1] at hl
        rw [show setField ((k1, v1) :: t') k (merge_value k tv v) =
            (k1, v1) :: setField t' k (merge_value k tv v) from by
          simp [setField, h1]]
        rw [mergeInto_cons_target, mergeInto_cons_target, ih hn.2 hl]
        congr 1
        have hne : ¬ k = k1 := fun hc => h1 hc.symm
        simp [lookupField, hne]

/-- Filtering on key presence ignores `setField`. -/
theorem filter_lookup_setField (rest t : List (String × JValue)) (k : String)
    (nv : JValue) :
    rest.filter (fun p => (lookupField (setField t k nv) p.1).isNone) =
      rest.filter (fun p => (lookupField t p.1).isNone) := by
  apply List.filter_congr
  intro p hp
  rw [lookupField_setField_isNone]

/-- Closed form of `_deep_merge` over documents with unique keys: target
entries merged entrywise, new source entries appended in order. -/
theorem deep_merge_eq_mergeFields (s : List (String × JValue)) :
    ∀ t, keysNodup t = true → keysNodup s = true →
      deep_merge t s = mergeFields t s := by
  induction s with
  | nil =>
      intro t hnt hns
      simp [deep_merge, mergeFields, mergeInto_nil]
  | cons p rest ih =>
      intro t hnt hns
      obtain ⟨k, v⟩ := p
      simp only [keysNodup, Bool.and_eq_true] at hns
      have hr : lookupField rest k = none := Option.isNone_iff_eq_none.1 hns.1
      rw [deep_merge]
      rcases hl : lookupField t k with _ | tv
      · simp only
        rw [ih (t ++ [(k, v)]) (keysNodup_append_single t k v hl hnt) hns.2]
        unfold mergeFields
        have hmap : mergeInto rest (t ++ [(k, v)]) = mergeInto rest t ++ [(k, v)] := by
          unfold mergeInto
          rw [List.map_append]
          congr 1
          simp [hr]
        rw [hmap]
        have hfilter : rest.filter (fun p => (lookupField (t ++ [(k, v)]) p.1).isNone) =
            rest.filter (fun p => (lookupField t p.1).isNone) := by
          apply List.filter_congr
          intro q hq
          rw [lookupField_append]
          have hqk : ¬ k = q.1 := by
            intro hc
            have hm : (q.1, q.2) ∈ rest := by simpa using hq
            have := lookupField_isSome_of_mem rest q.1 q.2 hm
            rw [← hc, hr] at this
            simp at this
          rcases lookupField t q.1 with _ | w <;> simp [lookupField, hqk]
        rw [hfilter, mergeInto_cons_notmem k v rest t hl]
        rw [show List.filter (fun p => (lookupField t p.1).isNone) ((k, v) :: rest) =
            (k, v) :: rest.filter (fun p => (lookupField t p.1).isNone) from by
          simp [List.filter_cons, hl]]
        simp
      · simp only
        rw [ih (setField t k (merge_value k tv v))
          (by rw [keysNodup_setField]; exact hnt) hns.2]
        unfold mergeFields
        rw [mergeInto_setField t rest k tv v hnt hl hr]
        congr 1
        rw [filter_lookup_setField]
        rw [show List.filter (fun p => (lookupField t p.1).isNone) ((k, v) :: rest) =
            rest.filter (fun p => (lookupField t p.1).isNone) from by
          simp [List.filter_cons, hl]]

/-- `_deep_merge` preserves key uniqueness. -/
theorem keysNodup_deep_merge (s : List (String × JValue)) :
    ∀ t, keysNodup t = true → keysNodup s = true →
      keysNodup (deep_merge t s) = true := by
  induction s with
  | nil =>
      intro t hnt hns
      simpa [deep_merge] using hnt
  | cons p rest ih =>
      intro t hnt hns
      obtain ⟨k, v⟩ := p
      simp only [keysNodup, Bool.and_eq_true] at hns
      rw [deep_merge]
      rcases hl : lookupField t k with _ | tv
      · simp only
        exact ih _ (keysNodup_append_single t k v hl hnt) hns.2
      · simp only
        exact ih _ (by rw [keysNodup_setField]; exact hnt) hns.2

/-- Lookup through the entrywise merge. -/
theorem lookupField_mergeInto (s t : List (String × JValue)) (k : String) :
    lookupField (mergeInto s t) k =
      (lookupField t k).map (fun tv =>
        match lookupField s k with
        | some sv => merge_value k tv sv
        | none => tv) := by
  induction t with
  | nil => rfl
  | cons p t' ih =>
      obtain ⟨k1, v1⟩ := p
      rw [mergeInto_cons_target]
      by_cases h1 : k1 = k
      · subst h1
        rcases hs : lookupField s k1 with _ | sv <;>
          simp [lookupField, hs]
      · rcases hs : lookupField s k1 with _ | sv <;>
          simp [lookupField, h1, hs, ih]

/-- Lookup in a list filtered by a predicate on keys. -/
theorem lookupField_filter_key (s : List (String × JValue))
    (pred : String → Bool) (k : String) :
    lookupField (s.filter (fun p => pred p.1)) k =
      if pred k then lookupField s k else none := by
  induction s with
  | nil => simp [lookupField]
  | cons p rest ih =>
      obtain ⟨k1, v1⟩ := p
      by_cases hp : pred k1
      · by_cases h1 : k1 = k
        · subst h1
          simp [List.filter_cons, hp, lookupField, ih]
        · simp [List.filter_cons, hp, lookupField, h1, ih]
      · by_cases h1 : k1 = k
        · subst h1
          have hp' : pred k1 = false := by
            cases hpe : pred k1
            · rfl
            · exact absurd hpe hp
          simp [List.filter_cons, hp', ih]
        · simp [List.filter_cons, hp, lookupField, h1, ih]

/-- Lookup through `_deep_merge`: merged where both documents carry the key,
otherwise whichever carries it. -/
theorem lookupField_deep_merge (t s : List (String × JValue)) (k : String)
    (hnt : keysNodup t = true) (hns : keysNodup s = true) :
    lookupField (deep_merge t s) k =
      (match lookupField t k, lookupField s k with
       | some tv, some sv => some (merge_value k tv sv)
       | some tv, none => some tv
       | none, r => r) := by
  rw [deep_merge_eq_mergeFields s t hnt hns]
  unfold mergeFields
  rw [lookupField_append, lookupField_mergeInto,
    lookupField_filter_key s (fun x => (lookupField t x).isNone) k]
  rcases hl : lookupField t k with _ | tv <;>
    rcases hs : lookupField s k with _ | sv <;>
    simp [hl, hs]

/-- Step equation: id search on a dict head. -/
theorem findItemById_cons_obj (i : JValue) (g : List (String × JValue))
    (rest : List JValue) :
    findItemById i (JValue.obj g :: rest) =
      (match lookupField g "id" with
       | some j => if jBeq j i then some g else findItemById i rest
       | none => findItemById i rest) := rfl

/-- Step equation: id search skips a non-dict head. -/
theorem findItemById_cons_nonobj (i e : JValue) (rest : List JValue)
    (he : isObjB e = false) :
    findItemById i (e :: rest) = findItemById i rest := by
  cases e <;> first
    | rfl
    | (exact absurd he (by simp [isObjB]))

/-- A string source value always replaces the target value. -/
theorem merge_value_str (k : String) (tv : JValue) (a : String) :
    merge_value k tv (.str a) = .str a := by
  cases tv <;> simp [merge_value]

/-- A numeric source value always replaces the target value. -/
theorem merge_value_num (k : String) (tv : JValue) (n : Int) :
    merge_value k tv (.num n) = .num n := by
  cases tv <;> simp [merge_value]

/-- Python `==` on two strings. -/
theorem jBeq_str_iff (a b : String) :
    jBeq (.str a) (.str b) = true ↔ a = b := by
  simp [jBeq]

/-- Search for an id in an appended list: first part wins. -/
theorem findItemById_append (i : JValue) (l1 l2 : List JValue) :
    findItemById i (l1 ++ l2) =
      (match findItemById i l1 with
       | some f => some f
       | none => findItemById i l2) := by
  induction l1 with
  | nil => rfl
  | cons e rest ih =>
      by_cases he : isObjB e = false
      · rw [List.cons_append, findItemById_cons_nonobj i e _ he,
          findItemById_cons_nonobj i e rest he, ih]
      · obtain ⟨g, rfl⟩ : ∃ g, e = JValue.obj g := by
          cases e <;> simp [isObjB] at he ⊢
        rw [List.cons_append, findItemById_cons_obj, findItemById_cons_obj]
        rcases hid : lookupField g "id" with _ | j
        · exact ih
        · by_cases hb : jBeq j i = true
          · simp [hb]
          · simp only [Bool.not_eq_true] at hb
            simp [hb, ih]

/-- What a successful id search returns: the fields of a member dict whose id
matches. -/
theorem findItemById_spec (i : JValue) (l : List JValue)
    (f : List (String × JValue)) (h : findItemById i l = some f) :
    (.obj f) ∈ l ∧ ∃ j, lookupField f "id" = some j ∧ jBeq j i = true := by
  induction l with
  | nil => simp [findItemById] at h
  | cons e rest ih =>
      by_cases he : isObjB e = false
      · rw [findItemById_cons_nonobj i e rest he] at h
        obtain ⟨hm, hrest⟩ := ih h
        exact ⟨List.mem_cons_of_mem _ hm, hrest⟩
      · obtain ⟨g, rfl⟩ : ∃ g, e = JValue.obj g := by
          cases e <;> simp [isObjB] at he ⊢
        rw [findItemById_cons_obj] at h
        rcases hid : lookupField g "id" with _ | j <;> simp only [hid] at h
        · obtain ⟨hm, hrest⟩ := ih h
          exact ⟨List.mem_cons_of_mem _ hm, hrest⟩
        · by_cases hb : jBeq j i = true
          · rw [if_pos hb] at h
            injection h with h
            subst h
            exact ⟨List.mem_cons_self _ _, j, hid, hb⟩
          · rw [if_neg hb] at h
            obtain ⟨hm, hrest⟩ := ih h
            exact ⟨List.mem_cons_of_mem _ hm, hrest⟩

/-- Ids of a cons list. -/
theorem item_ids_cons (e : JValue) (l : List JValue) :
    item_ids (e :: l) =
      (match getId e with
       | some i => i :: item_ids l
       | none => item_ids l) := by
  simp only [item_ids, List.filterMap_cons]
  cases getId e <;> rfl

/-- Ids of an appended list. -/
theorem item_ids_append (a b : List JValue) :
    item_ids (a ++ b) = item_ids a ++ item_ids b := by
  simp [item_ids]

/-- The id of a dict member. -/
theorem getId_obj (g : List (String × JValue)) :
    getId (JValue.obj g) = lookupField g "id" := rfl

/-- An id search finds nothing when no item id compares equal. -/
theorem findItemById_eq_none (i : JValue) (l : List JValue)
    (h : ∀ j ∈ item_ids l, jBeq j i = false) : findItemById i l = none := by
  induction l with
  | nil => rfl
  | cons e rest ih =>
      have hrest : ∀ j ∈ item_ids rest, jBeq j i = false := by
        intro j hj
        apply h
        rw [item_ids_cons]
        cases getId e
        · exact hj
        · exact List.mem_cons_of_mem _ hj
      by_cases he : isObjB e = false
      · rw [findItemById_cons_nonobj i e rest he]
        exact ih hrest
      · obtain ⟨g, rfl⟩ : ∃ g, e = JValue.obj g := by
          cases e <;> simp [isObjB] at he ⊢
        rw [findItemById_cons_obj]
        rcases hid : lookupField g "id" with _ | j
        · exact ih hrest
        · have hji : jBeq j i = false := by
            apply h
            rw [item_ids_cons]
            simp [getId, hid]
          simp [hji, ih hrest]

/-- Components of a well-formed array value. -/
theorem wfV_arr_parts (l : List JValue) (h : wfV (.arr l) = true) :
    (∀ i ∈ item_ids l, isStrB i = true) ∧ noDupB (item_ids l) = true ∧
      wfList l = true := by
  rw [wfV] at h
  simp only [Bool.and_eq_true, List.all_eq_true] at h
  exact ⟨h.1.1, h.1.2, h.2⟩

/-- Components of a well-formed object value. -/
theorem wfV_obj_parts (f : List (String × JValue)) (h : wfV (.obj f) = true) :
    keysNodup f = true ∧ wfFields f = true := by
  rw [wfV] at h
  simpa [Bool.and_eq_true] using h

/-- Splitting pairwise distinctness across an append. -/
theorem noDupB_append_parts (A B : List JValue)
    (h : noDupB (A ++ B) = true) :
    noDupB A = true ∧ noDupB B = true ∧
      ∀ j ∈ A, ∀ i ∈ B, jBeq i j = false := by
  induction A with
  | nil => exact ⟨rfl, h, by simp⟩
  | cons j A' ih =>
      rw [List.cons_append, noDupB] at h
      simp only [Bool.and_eq_true, Bool.not_eq_true', List.any_eq_false] at h
      obtain ⟨hj, hrest⟩ := h
      obtain ⟨hA', hB, hcross⟩ := ih hrest
      refine ⟨?_, hB, ?_⟩
      · rw [noDupB]
        simp only [Bool.and_eq_true, Bool.not_eq_true', List.any_eq_false]
        exact ⟨fun x hx => hj x (List.mem_append_left _ hx), hA'⟩
      · intro j' hj' i hi
        rcases List.mem_cons.1 hj' with rfl | hj'
        · have hne := hj i (List.mem_append_right _ hi)
          cases hbe : jBeq i j'
          · rfl
          · exact absurd hbe hne
        · exact hcross j' hj' i hi

/-- On string ids, a failing comparison fails in both directions. -/
theorem jBeq_false_symm_str (i j : JValue) (hi : isStrB i = true)
    (hj : isStrB j = true) (h : jBeq i j = false) : jBeq j i = false := by
  obtain ⟨a, rfl⟩ : ∃ a, i = JValue.str a := by
    cases i <;> simp [isStrB] at hi ⊢
  obtain ⟨b, rfl⟩ : ∃ b, j = JValue.str b := by
    cases j <;> simp [isStrB] at hj ⊢
  cases hb : jBeq (JValue.str b) (JValue.str a)
  · rfl
  · have hba := (jBeq_str_iff b a).1 hb
    subst hba
    rw [(jBeq_str_iff b b).2 rfl] at h
    exact h

/-- On string ids, a successful comparison succeeds in both directions. -/
theorem jBeq_true_symm_str (i j : JValue) (hi : isStrB i = true)
    (hj : isStrB j = true) (h : jBeq i j = true) : jBeq j i = true := by
  obtain ⟨a, rfl⟩ : ∃ a, i = JValue.str a := by
    cases i <;> simp [isStrB] at hi ⊢
  obtain ⟨b, rfl⟩ : ∃ b, j = JValue.str b := by
    cases j <;> simp [isStrB] at hj ⊢
  exact (jBeq_str_iff b a).2 ((jBeq_str_iff a b).1 h).symm

/-- The id of a member dict is among the list's item ids. -/
theorem mem_item_ids_of_mem (l : List JValue) (f : List (String × JValue))
    (j : JValue) (hm : (.obj f) ∈ l) (hid : lookupField f "id" = some j) :
    j ∈ item_ids l := by
  simp only [item_ids]
  exact List.mem_filterMap.2 ⟨.obj f, hm, by simp [getId, hid]⟩

/-- Step equation for the elementwise list merge. -/
theorem mergeItemsInto_cons (s : List JValue) (e : JValue) (t : List JValue) :
    mergeItemsInto s (e :: t) = mergeItemElem s e :: mergeItemsInto s t := rfl

/-- The elementwise list merge only depends on the id searches it makes. -/
theorem mergeItemsInto_congr (s1 s2 t : List JValue)
    (h : ∀ (g : List (String × JValue)) (j : JValue), JValue.obj g ∈ t →
      lookupField g "id" = some j → findItemById j s1 = findItemById j s2) :
    mergeItemsInto s1 t = mergeItemsInto s2 t := by
  apply List.map_congr_left
  intro e he
  cases e with
  | obj g =>
      rcases hid : lookupField g "id" with _ | j
      · simp [mergeItemElem, hid]
      · simp only [mergeItemElem, hid, h g j he hid]
  | null => rfl
  | bool b => rfl
  | num n => rfl
  | str a => rfl
  | arr l2 => rfl

/-- Merging with an empty source list changes nothing elementwise. -/
theorem mergeItemsInto_nil_src (t : List JValue) : mergeItemsInto [] t = t := by
  apply List.map_id''
  intro e
  cases e with
  | obj g =>
      rcases hid : lookupField g "id" with _ | j <;>
        simp [mergeItemElem, hid, findItemById]
  | null => rfl
  | bool b => rfl
  | num n => rfl
  | str a => rfl
  | arr l2 => rfl

/-- Merging two dicts carrying the same string id preserves that id. -/
theorem lookupField_id_deep_merge (tf sf : List (String × JValue)) (a : String)
    (hnt : keysNodup tf = true) (hns : keysNodup sf = true)
    (htid : lookupField tf "id" = some (.str a))
    (hsid : lookupField sf "id" = some (.str a)) :
    lookupField (deep_merge tf sf) "id" = some (.str a) := by
  rw [lookupField_deep_merge tf sf "id" hnt hns, htid, hsid]
  simp [merge_value_str]

/-- Step equation for id presence. -/
theorem hasIdB_cons (i e : JValue) (l : List JValue) :
    hasIdB i (e :: l) =
      (match getId e with
       | some j => jBeq j i || hasIdB i l
       | none => hasIdB i l) := by
  cases e with
  | obj g =>
      rw [hasIdB, findItemById_cons_obj, getId_obj]
      rcases hid : lookupField g "id" with _ | j
      · rfl
      · cases hb : jBeq j i <;> simp [hb, hasIdB]
  | null => rfl
  | bool b => rfl
  | num n => rfl
  | str a => rfl
  | arr l2 => rfl

/-- Id presence across an append. -/
theorem hasIdB_append (i : JValue) (a b : List JValue) :
    hasIdB i (a ++ b) = (hasIdB i a || hasIdB i b) := by
  rw [hasIdB, findItemById_append]
  rcases hf : findItemById i a with _ | f <;> simp [hf, hasIdB]

/-- A member dict with a matching id makes the id search succeed. -/
theorem findItemById_isSome_of_mem (i : JValue) (l : List JValue)
    (f : List (String × JValue)) (j : JValue) (hm : (.obj f) ∈ l)
    (hid : lookupField f "id" = some j) (hb : jBeq j i = true) :
    hasIdB i l = true := by
  induction l with
  | nil => simp at hm
  | cons e rest ih =>
      rcases List.mem_cons.1 hm with rfl | hm'
      · rw [hasIdB, findItemById_cons_obj]
        simp only [hid, if_pos hb, Option.isSome_some]
      · rw [hasIdB_cons]
        rcases hg : getId e with _ | j2
        · exact ih hm'
        · rw [ih hm']
          simp

/-- Id absence is exactly failure of every item-id comparison. -/
theorem hasIdB_eq_false_iff (i : JValue) (l : List JValue) :
    hasIdB i l = false ↔ ∀ j ∈ item_ids l, jBeq j i = false := by
  constructor
  · intro h j hj
    simp only [item_ids] at hj
    obtain ⟨e, he, hg⟩ := List.mem_filterMap.1 hj
    obtain ⟨f, rfl⟩ : ∃ f, e = JValue.obj f := by
      cases e <;> simp [getId] at hg ⊢
    cases hb : jBeq j i
    · rfl
    · rw [findItemById_isSome_of_mem i l f j he hg hb] at h
      exact absurd h (by simp)
  · intro h
    rw [hasIdB, findItemById_eq_none i l h]
    rfl

/-- Item ids of a filtered list come from the original list. -/
theorem mem_item_ids_filter (p : JValue → Bool) (s : List JValue) (j : JValue)
    (h : j ∈ item_ids (s.filter p)) : j ∈ item_ids s := by
  simp only [item_ids] at h ⊢
  obtain ⟨e, he, hg⟩ := List.mem_filterMap.1 h
  exact List.mem_filterMap.2 ⟨e, List.mem_of_mem_filter he, hg⟩

/-- Decomposition of array well-formedness over a cons. -/
theorem wfV_arr_cons (e : JValue) (t : List JValue)
    (h : wfV (.arr (e :: t)) = true) :
    wfV e = true ∧ wfV (.arr t) = true ∧
      (∀ j, getId e = some j → isStrB j = true ∧
        ∀ j' ∈ item_ids t, jBeq j' j = false) := by
  obtain ⟨hstr, hnd, hwl⟩ := wfV_arr_parts _ h
  rw [item_ids_cons] at hstr hnd
  rw [wfList] at hwl
  simp only [Bool.and_eq_true] at hwl
  have harr : wfV (.arr t) = true := by
    rw [wfV]
    simp only [Bool.and_eq_true, List.all_eq_true]
    rcases hg : getId e with _ | j
    · rw [hg] at hstr hnd
      exact ⟨⟨hstr, hnd⟩, hwl.2⟩
    · rw [hg] at hstr hnd
      rw [noDupB] at hnd
      simp only [Bool.and_eq_true] at hnd
      exact ⟨⟨fun x hx => hstr x (List.mem_cons_of_mem _ hx), hnd.2⟩, hwl.2⟩
  refine ⟨hwl.1, harr, ?_⟩
  intro j hg
  rw [hg] at hstr hnd
  rw [noDupB] at hnd
  simp only [Bool.and_eq_true, Bool.not_eq_true', List.any_eq_false] at hnd
  refine ⟨hstr j (List.mem_cons_self _ _), ?_⟩
  intro j' hj'
  have := hnd.1 j' hj'
  cases hbe : jBeq j' j
  · rfl
  · exact absurd hbe this

/-- The elementwise list merge preserves the id of each target element. -/
theorem getId_mergeItemElem (s : List JValue) (e : JValue)
    (hwe : wfV e = true) (hws : wfV (.arr s) = true)
    (hstr : ∀ j, getId e = some j → isStrB j = true) :
    getId (mergeItemElem s e) = getId e := by
  cases e with
  | obj tf =>
      rcases hid : lookupField tf "id" with _ | j
      · simp [mergeItemElem, hid, getId_obj]
      · rcases hf : findItemById j s with _ | sf
        · simp [mergeItemElem, hid, hf]
        · obtain ⟨hm, j', hid', hb⟩ := findItemById_spec j s sf hf
          obtain ⟨hsstr, hsnd, hswl⟩ := wfV_arr_parts s hws
          have hj'mem : j' ∈ item_ids s := mem_item_ids_of_mem s sf j' hm hid'
          have hjstr : isStrB j = true := hstr j (by rw [getId_obj, hid])
          have hj'str : isStrB j' = true := hsstr j' hj'mem
          obtain ⟨a, rfl⟩ : ∃ a, j = JValue.str a := by
            cases j <;> simp [isStrB] at hjstr ⊢
          obtain ⟨b, rfl⟩ : ∃ b, j' = JValue.str b := by
            cases j' <;> simp [isStrB] at hj'str ⊢
          have hba : b = a := (jBeq_str_iff b a).1 hb
          subst hba
          obtain ⟨hnt, hwft⟩ := wfV_obj_parts tf hwe
          have hwsf : wfV (.obj sf) = true :=
            wfV_of_mem_wfList s (.obj sf) hswl hm
          obtain ⟨hnsf, hwfs⟩ := wfV_obj_parts sf hwsf
          simp only [mergeItemElem, hid, hf, getId_obj]
          rw [lookupField_id_deep_merge tf sf b hnt hnsf hid hid']
  | null => rfl
  | bool b => rfl
  | num n => rfl
  | str a => rfl
  | arr l2 => rfl

/-- The elementwise list merge does not change which ids are present. -/
theorem hasIdB_mergeItemsInto (i : JValue) (s t : List JValue)
    (hwt : wfV (.arr t) = true) (hws : wfV (.arr s) = true) :
    hasIdB i (mergeItemsInto s t) = hasIdB i t := by
  induction t with
  | nil => rfl
  | cons e t' ih =>
      obtain ⟨hwe, hwt', hestr⟩ := wfV_arr_cons e t' hwt
      rw [mergeItemsInto_cons, hasIdB_cons, hasIdB_cons,
        getId_mergeItemElem s e hwe hws (fun j hj => (hestr j hj).1), ih hwt']

/-- Updating an id that is not present changes nothing. -/
theorem update_last_not_found (i : JValue) (sf : List (String × JValue))
    (l : List JValue) (h : hasIdB i l = false) :
    update_last_by_id i sf l = l := by
  cases l with
  | nil => simp [update_last_by_id]
  | cons e rest =>
      have h' := h
      rw [hasIdB_cons] at h'
      have hrest : hasIdB i rest = false := by
        rcases hg : getId e with _ | j <;> simp only [hg] at h'
        · exact h'
        · simp only [Bool.or_eq_false_iff] at h'
          exact h'.2
      cases e with
      | obj tf =>
          rcases hid : lookupField tf "id" with _ | j
          · simp [update_last_by_id, hrest, hid]
          · have hji : jBeq j i = false := by
              simp only [getId_obj, hid] at h'
              simp only [Bool.or_eq_false_iff] at h'
              exact h'.1
            simp [update_last_by_id, hrest, hid, hji]
      | null => simp [update_last_by_id, hrest]
      | bool b => simp [update_last_by_id, hrest]
      | num n => simp [update_last_by_id, hrest]
      | str a => simp [update_last_by_id, hrest]
      | arr l2 => simp [update_last_by_id, hrest]

/-- Updating past an appended tail that does not carry the id. -/
theorem update_last_append (i : JValue) (sf : List (String × JValue))
    (A B : List JValue) (hB : hasIdB i B = false) :
    update_last_by_id i sf (A ++ B) = update_last_by_id i sf A ++ B := by
  induction A with
  | nil =>
      simp only [List.nil_append]
      rw [update_last_not_found i sf B hB]
      simp [update_last_by_id]
  | cons e A' ih =>
      have hAB : hasIdB i (A' ++ B) = hasIdB i A' := by
        rw [hasIdB_append, hB, Bool.or_false]
      cases hA' : hasIdB i A'
      · rw [hA'] at hAB
        cases e with
        | obj tf =>
            rcases hid : lookupField tf "id" with _ | j
            · simp [update_last_by_id, hAB, hA', hid]
            · cases hji : jBeq j i <;>
                simp [update_last_by_id, hAB, hA', hid, hji]
        | null => simp [update_last_by_id, hAB, hA']
        | bool b => simp [update_last_by_id, hAB, hA']
        | num n => simp [update_last_by_id, hAB, hA']
        | str a => simp [update_last_by_id, hAB, hA']
        | arr l2 => simp [update_last_by_id, hAB, hA']
      · rw [hA'] at hAB
        cases e with
        | obj tf =>
            rcases hid : lookupField tf "id" with _ | j
            · simp [update_last_by_id, hAB, hA', hid, ih]
            · cases hji : jBeq j i <;>
                simp [update_last_by_id, hAB, hA', hid, hji, ih]
        | null => simp [update_last_by_id, hAB, hA', ih]
        | bool b => simp [update_last_by_id, hAB, hA', ih]
        | num n => simp [update_last_by_id, hAB, hA', ih]
        | str a => simp [update_last_by_id, hAB, hA', ih]
        | arr l2 => simp [update_last_by_id, hAB, hA', ih]

/-- Well-formedness of array elements splits across an append. -/
theorem wfList_append (a b : List JValue) :
    wfList (a ++ b) = (wfList a && wfList b) := by
  induction a with
  | nil => simp [wfList]
  | cons e a' ih =>
      rw [List.cons_append, wfList, wfList, ih, Bool.and_assoc]

/-- Decomposition of array well-formedness over an append. -/
theorem wfV_arr_append_parts (a b : List JValue)
    (h : wfV (.arr (a ++ b)) = true) :
    wfV (.arr a) = true ∧ wfV (.arr b) = true ∧
      ∀ j ∈ item_ids a, ∀ i ∈ item_ids b, jBeq i j = false := by
  obtain ⟨hstr, hnd, hwl⟩ := wfV_arr_parts _ h
  rw [item_ids_append] at hstr hnd
  obtain ⟨hnda, hndb, hcross⟩ := noDupB_append_parts _ _ hnd
  rw [wfList_append] at hwl
  simp only [Bool.and_eq_true] at hwl
  refine ⟨?_, ?_, hcross⟩
  · rw [wfV]
    simp only [Bool.and_eq_true, List.all_eq_true]
    exact ⟨⟨fun x hx => hstr x (List.mem_append_left _ hx), hnda⟩, hwl.1⟩
  · rw [wfV]
    simp only [Bool.and_eq_true, List.all_eq_true]
    exact ⟨⟨fun x hx => hstr x (List.mem_append_right _ hx), hndb⟩, hwl.2⟩

/-- The item ids of a one-dict list. -/
theorem item_ids_single_obj (sf : List (String × JValue)) (i : JValue)
    (h : lookupField sf "id" = some i) :
    item_ids [JValue.obj sf] = [i] := by
  simp [item_ids, getId, h]

/-- Equal string values under Python `==`. -/
theorem jBeq_eq_of_str (p q : JValue) (hp : isStrB p = true)
    (hq : isStrB q = true) (h : jBeq p q = true) : p = q := by
  obtain ⟨a, rfl⟩ : ∃ a, p = JValue.str a := by
    cases p <;> simp [isStrB] at hp ⊢
  obtain ⟨b, rfl⟩ : ∃ b, q = JValue.str b := by
    cases q <;> simp [isStrB] at hq ⊢
  rw [(jBeq_str_iff a b).1 h]

/-- Python `==` is reflexive on strings. -/
theorem jBeq_refl_str (p : JValue) (hp : isStrB p = true) :
    jBeq p p = true := by
  obtain ⟨a, rfl⟩ : ∃ a, p = JValue.str a := by
    cases p <;> simp [isStrB] at hp ⊢
  exact (jBeq_str_iff a a).2 rfl

/-- The element merge sends dicts to dicts. -/
theorem mergeItemElem_obj (s : List JValue) (tf : List (String × JValue)) :
    ∃ g, mergeItemElem s (JValue.obj tf) = JValue.obj g := by
  rcases hid : lookupField tf "id" with _ | j
  · exact ⟨tf, by simp [mergeItemElem, hid]⟩
  · rcases hf : findItemById j s with _ | sfj
    · exact ⟨tf, by simp [mergeItemElem, hid, hf]⟩
    · exact ⟨deep_merge tf sfj, by simp [mergeItemElem, hid, hf]⟩

/-- The element merge leaves non-dicts unchanged. -/
theorem mergeItemElem_nonobj (s : List JValue) (e : JValue)
    (he : isObjB e = false) : mergeItemElem s e = e := by
  cases e <;> first
    | rfl
    | (exact absurd he (by simp [isObjB]))

/-- Step equation: the update walks past the head while the id is found
further down. -/
theorem update_last_cons_found (i : JValue) (sf : List (String × JValue))
    (e0 : JValue) (rest : List JValue) (h : hasIdB i rest = true) :
    update_last_by_id i sf (e0 :: rest) = e0 :: update_last_by_id i sf rest := by
  cases e0 with
  | obj tf =>
      rcases hid : lookupField tf "id" with _ | j
      · simp [update_last_by_id, h, hid]
      · cases hji : jBeq j i <;> simp [update_last_by_id, h, hid, hji]
  | null => simp [update_last_by_id, h]
  | bool b => simp [update_last_by_id, h]
  | num n => simp [update_last_by_id, h]
  | str a => simp [update_last_by_id, h]
  | arr l2 => simp [update_last_by_id, h]

/-- Updating the merged target with a fresh source dict is the same as
merging with that dict appended to the source list. -/
theorem update_last_mergeItemsInto (sf : List (String × JValue)) (i : JValue)
    (s0 t : List JValue)
    (hwt : wfV (.arr t) = true)
    (hws0x : wfV (.arr (s0 ++ [JValue.obj sf])) = true)
    (hsfid : lookupField sf "id" = some i) :
    update_last_by_id i sf (mergeItemsInto s0 t) =
      mergeItemsInto (s0 ++ [JValue.obj sf]) t := by
  obtain ⟨hws0, hwx, hcross⟩ := wfV_arr_append_parts s0 [JValue.obj sf] hws0x
  have hidsx : item_ids [JValue.obj sf] = [i] := item_ids_single_obj sf i hsfid
  have histr : isStrB i = true := by
    have hall := (wfV_arr_parts _ hwx).1
    rw [hidsx] at hall
    exact hall i (List.mem_cons_self _ _)
  have hs0str : ∀ j ∈ item_ids s0, isStrB j = true := (wfV_arr_parts _ hws0).1
  have hinots0 : ∀ j ∈ item_ids s0, jBeq j i = false := by
    intro j hj
    have h1 : jBeq i j = false :=
      hcross j hj i (by rw [hidsx]; exact List.mem_cons_self _ _)
    exact jBeq_false_symm_str i j histr (hs0str j hj) h1
  have hfinds0 : findItemById i s0 = none := findItemById_eq_none i s0 hinots0
  revert hwt
  induction t with
  | nil =>
      intro hwt
      simp [mergeItemsInto, update_last_by_id]
  | cons e t' ih =>
      intro hwt
      obtain ⟨hwe, hwt', hestr⟩ := wfV_arr_cons e t' hwt
      have htstr : ∀ j ∈ item_ids t', isStrB j = true := (wfV_arr_parts _ hwt').1
      rw [mergeItemsInto_cons, mergeItemsInto_cons]
      have hhas : hasIdB i (mergeItemsInto s0 t') = hasIdB i t' :=
        hasIdB_mergeItemsInto i s0 t' hwt' hws0
      cases ht' : hasIdB i t'
      · rw [ht'] at hhas
        have htail : mergeItemsInto (s0 ++ [JValue.obj sf]) t' =
            mergeItemsInto s0 t' := by
          apply mergeItemsInto_congr
          intro g j hm hid
          rw [findItemById_append]
          rcases hf : findItemById j s0 with _ | x
          · have hjmem : j ∈ item_ids t' := mem_item_ids_of_mem t' g j hm hid
            have hji : jBeq j i = false := (hasIdB_eq_false_iff i t').1 ht' j hjmem
            have hij : jBeq i j = false :=
              jBeq_false_symm_str j i (htstr j hjmem) histr hji
            simp [findItemById, hsfid, hij]
          · rfl
        cases e with
        | obj tf =>
            rcases hid : lookupField tf "id" with _ | j
            · rw [show mergeItemElem s0 (JValue.obj tf) = JValue.obj tf from by
                simp [mergeItemElem, hid]]
              rw [show mergeItemElem (s0 ++ [JValue.obj sf]) (JValue.obj tf) =
                  JValue.obj tf from by simp [mergeItemElem, hid]]
              simp [update_last_by_id, hhas, hid, htail]
            · have hjstr : isStrB j = true :=
                (hestr j (by simp [getId_obj, hid])).1
              cases hji : jBeq j i
              · have hpres : getId (mergeItemElem s0 (JValue.obj tf)) = some j := by
                  rw [getId_mergeItemElem s0 _ hwe hws0
                    (fun j' hj' => (hestr j' hj').1)]
                  simp [getId_obj, hid]
                obtain ⟨g', hg'⟩ := mergeItemElem_obj s0 tf
                have hg'id : lookupField g' "id" = some j := by
                  rw [hg'] at hpres
                  simpa [getId_obj] using hpres
                have hsame : mergeItemElem (s0 ++ [JValue.obj sf]) (JValue.obj tf) =
                    mergeItemElem s0 (JValue.obj tf) := by
                  have hij : jBeq i j = false :=
                    jBeq_false_symm_str j i hjstr histr hji
                  simp only [mergeItemElem, hid]
                  rw [findItemById_append]
                  rcases hf : findItemById j s0 with _ | x0
                  · simp [findItemById, hsfid, hij]
                  · rfl
                rw [hsame, hg']
                simp [update_last_by_id, hhas, hg'id, hji, htail]
              · have hji' : j = i := jBeq_eq_of_str j i hjstr histr hji
                subst hji'
                rw [show mergeItemElem s0 (JValue.obj tf) = JValue.obj tf from by
                  simp [mergeItemElem, hid, hfinds0]]
                have hsame : mergeItemElem (s0 ++ [JValue.obj sf]) (JValue.obj tf) =
                    JValue.obj (deep_merge tf sf) := by
                  simp only [mergeItemElem, hid]
                  rw [findItemById_append, hfinds0]
                  simp [findItemById, hsfid, jBeq_refl_str _ histr]
                rw [hsame]
                simp [update_last_by_id, hhas, hid, htail, jBeq_refl_str _ histr]
        | null => simp [update_last_by_id, hhas, htail, mergeItemElem]
        | bool b => simp [update_last_by_id, hhas, htail, mergeItemElem]
        | num n => simp [update_last_by_id, hhas, htail, mergeItemElem]
        | str a => simp [update_last_by_id, hhas, htail, mergeItemElem]
        | arr l2 => simp [update_last_by_id, hhas, htail, mergeItemElem]
      · rw [ht'] at hhas
        have hheads : mergeItemElem (s0 ++ [JValue.obj sf]) e =
            mergeItemElem s0 e := by
          cases e with
          | obj tf =>
              rcases hid : lookupField tf "id" with _ | j
              · simp [mergeItemElem, hid]
              · have hdist : ∀ x ∈ item_ids t', jBeq x j = false :=
                  (hestr j (by simp [getId_obj, hid])).2
                obtain ⟨f0, hf0⟩ : ∃ f0, findItemById i t' = some f0 := by
                  rw [hasIdB] at ht'
                  exact Option.isSome_iff_exists.1 ht'
                obtain ⟨hm0, j'', hj''id, hj''b⟩ := findItemById_spec i t' f0 hf0
                have hj''mem : j'' ∈ item_ids t' :=
                  mem_item_ids_of_mem t' f0 j'' hm0 hj''id
                have hj''i : j'' = i :=
                  jBeq_eq_of_str j'' i (htstr j'' hj''mem) histr hj''b
                have hij : jBeq i j = false := by
                  rw [← hj''i]
                  exact hdist j'' hj''mem
                simp only [mergeItemElem, hid]
                rw [findItemById_append]
                rcases hf : findItemById j s0 with _ | x0
                · simp [findItemById, hsfid, hij]
                · rfl
          | null => rfl
          | bool b => rfl
          | num n => rfl
          | str a => rfl
          | arr l2 => rfl
        rw [update_last_cons_found i sf _ _ (by rw [hhas]),
          ih hwt', hheads]

/-- A one-element list with no id never matches an id search. -/
theorem findItemById_single_no_id (j x : JValue) (hx : getId x = none) :
    findItemById j [x] = none := by
  cases x with
  | obj g =>
      rw [getId_obj] at hx
      simp [findItemById, hx]
  | null => rfl
  | bool b => rfl
  | num n => rfl
  | str a => rfl
  | arr l2 => rfl

/-- Appending a source item with no id changes neither closed-form part. -/
theorem mergeItemsSpec_append_no_id (t s0 : List JValue) (x : JValue)
    (hx : getId x = none) :
    mergeItemsSpec t (s0 ++ [x]) = mergeItemsSpec t s0 := by
  unfold mergeItemsSpec
  congr 1
  · apply mergeItemsInto_congr
    intro g j hm hid
    rw [findItemById_append, findItemById_single_no_id j x hx]
    rcases findItemById j s0 with _ | f <;> rfl
  · unfold newItemsFilter
    rw [List.filter_append]
    simp [hx]

/-- The `_merge_list_by_id` loop, started from the closed form of a processed
prefix, computes the closed form of the whole source. -/
theorem merge_items_eq_spec_aux (t : List JValue) (hwt : wfV (.arr t) = true) :
    ∀ s1 s0, wfV (.arr (s0 ++ s1)) = true →
      merge_items t (mergeItemsSpec t s0) s1 = mergeItemsSpec t (s0 ++ s1) := by
  intro s1
  induction s1 with
  | nil =>
      intro s0 hw
      simp [merge_items]
  | cons x s1' ih =>
      intro s0 hw
      have hassoc : s0 ++ x :: s1' = (s0 ++ [x]) ++ s1' := by simp
      have hw' : wfV (.arr ((s0 ++ [x]) ++ s1')) = true := by
        rw [← hassoc]; exact hw
      rw [hassoc]
      cases x with
      | obj sf =>
          rcases hid : lookupField sf "id" with _ | i
          · rw [show merge_items t (mergeItemsSpec t s0) (JValue.obj sf :: s1') =
                merge_items t (mergeItemsSpec t s0) s1' from by
              simp [merge_items, hid]]
            rw [← mergeItemsSpec_append_no_id t s0 (JValue.obj sf)
              (by simp [getId, hid])]
            exact ih (s0 ++ [JValue.obj sf]) hw'
          · obtain ⟨hws0x, hws1', hcross⟩ :=
              wfV_arr_append_parts (s0 ++ [JValue.obj sf]) s1' hw'
            obtain ⟨hws0, hwx, hcross0⟩ :=
              wfV_arr_append_parts s0 [JValue.obj sf] hws0x
            have hidsx : item_ids [JValue.obj sf] = [i] :=
              item_ids_single_obj sf i hid
            have histr : isStrB i = true := by
              have hall := (wfV_arr_parts _ hwx).1
              rw [hidsx] at hall
              exact hall i (List.mem_cons_self _ _)
            have hs0str : ∀ j ∈ item_ids s0, isStrB j = true :=
              (wfV_arr_parts _ hws0).1
            have htstr : ∀ j ∈ item_ids t, isStrB j = true :=
              (wfV_arr_parts _ hwt).1
            have hinots0 : ∀ j ∈ item_ids s0, jBeq j i = false := by
              intro j hj
              have h1 : jBeq i j = false :=
                hcross0 j hj i (by rw [hidsx]; exact List.mem_cons_self _ _)
              exact jBeq_false_symm_str i j histr (hs0str j hj) h1
            cases hT : hasIdB i t
            · -- a brand-new id: the item is appended
              rw [show merge_items t (mergeItemsSpec t s0) (JValue.obj sf :: s1') =
                  merge_items t (mergeItemsSpec t s0 ++ [JValue.obj sf]) s1' from by
                simp [merge_items, hid, hT]]
              have hspec : mergeItemsSpec t s0 ++ [JValue.obj sf] =
                  mergeItemsSpec t (s0 ++ [JValue.obj sf]) := by
                unfold mergeItemsSpec
                have hinto : mergeItemsInto (s0 ++ [JValue.obj sf]) t =
                    mergeItemsInto s0 t := by
                  apply mergeItemsInto_congr
                  intro g j hm hjid
                  rw [findItemById_append]
                  rcases hf : findItemById j s0 with _ | f0
                  · have hjmem : j ∈ item_ids t :=
                      mem_item_ids_of_mem t g j hm hjid
                    have hji : jBeq j i = false :=
                      (hasIdB_eq_false_iff i t).1 hT j hjmem
                    have hij : jBeq i j = false :=
                      jBeq_false_symm_str j i (htstr j hjmem) histr hji
                    simp [findItemById, hid, hij]
                  · rfl
                have hfilt : newItemsFilter t (s0 ++ [JValue.obj sf]) =
                    newItemsFilter t s0 ++ [JValue.obj sf] := by
                  unfold newItemsFilter
                  rw [List.filter_append]
                  simp [getId, hid, hT]
                rw [hinto, hfilt, List.append_assoc]
              rw [hspec, ih (s0 ++ [JValue.obj sf]) hw']
            · -- an id already in the target: merge into its element
              rw [show merge_items t (mergeItemsSpec t s0) (JValue.obj sf :: s1') =
                  merge_items t (update_last_by_id i sf (mergeItemsSpec t s0)) s1'
                  from by simp [merge_items, hid, hT]]
              have hnf : hasIdB i (newItemsFilter t s0) = false := by
                rw [hasIdB_eq_false_iff]
                intro j hj
                exact hinots0 j (mem_item_ids_filter _ s0 j hj)
              have hupd : update_last_by_id i sf (mergeItemsSpec t s0) =
                  mergeItemsSpec t (s0 ++ [JValue.obj sf]) := by
                unfold mergeItemsSpec
                rw [update_last_append i sf _ _ hnf,
                  update_last_mergeItemsInto sf i s0 t hwt hws0x hid]
                have hfilt : newItemsFilter t (s0 ++ [JValue.obj sf]) =
                    newItemsFilter t s0 := by
                  unfold newItemsFilter
                  rw [List.filter_append]
                  simp [getId, hid, hT]
                rw [hfilt]
              rw [hupd, ih (s0 ++ [JValue.obj sf]) hw']
      | null =>
          rw [show merge_items t (mergeItemsSpec t s0) (JValue.null :: s1') =
              merge_items t (mergeItemsSpec t s0) s1' from by simp [merge_items]]
          rw [← mergeItemsSpec_append_no_id t s0 JValue.null (by simp [getId])]
          exact ih (s0 ++ [JValue.null]) hw'
      | bool b =>
          rw [show merge_items t (mergeItemsSpec t s0) (JValue.bool b :: s1') =
              merge_items t (mergeItemsSpec t s0) s1' from by simp [merge_items]]
          rw [← mergeItemsSpec_append_no_id t s0 (JValue.bool b) (by simp [getId])]
          exact ih (s0 ++ [JValue.bool b]) hw'
      | num n =>
          rw [show merge_items t (mergeItemsSpec t s0) (JValue.num n :: s1') =
              merge_items t (mergeItemsSpec t s0) s1' from by simp [merge_items]]
          rw [← mergeItemsSpec_append_no_id t s0 (JValue.num n) (by simp [getId])]
          exact ih (s0 ++ [JValue.num n]) hw'
      | str a =>
          rw [show merge_items t (mergeItemsSpec t s0) (JValue.str a :: s1') =
              merge_items t (mergeItemsSpec t s0) s1' from by simp [merge_items]]
          rw [← mergeItemsSpec_append_no_id t s0 (JValue.str a) (by simp [getId])]
          exact ih (s0 ++ [JValue.str a]) hw'
      | arr l2 =>
          rw [show merge_items t (mergeItemsSpec t s0) (JValue.arr l2 :: s1') =
              merge_items t (mergeItemsSpec t s0) s1' from by simp [merge_items]]
          rw [← mergeItemsSpec_append_no_id t s0 (JValue.arr l2) (by simp [getId])]
          exact ih (s0 ++ [JValue.arr l2]) hw'

/-- Closed form of `_merge_list_by_id` on well-formed lists. -/
theorem merge_list_by_id_eq_spec (t s : List JValue)
    (hwt : wfV (.arr t) = true) (hws : wfV (.arr s) = true) :
    merge_list_by_id t s = mergeItemsSpec t s := by
  have haux := merge_items_eq_spec_aux t hwt s [] (by simpa using hws)
  rw [show mergeItemsSpec t [] = t from by
    simp [mergeItemsSpec, mergeItemsInto_nil_src, newItemsFilter]] at haux
  rw [List.nil_append] at haux
  rw [merge_list_by_id]
  exact haux

/-- Size bound for looked-up values. -/
theorem sizeOf_lookupField (t : List (String × JValue)) (k : String)
    (v : JValue) (h : lookupField t k = some v) : sizeOf v + 1 < sizeOf t := by
  have hm := mem_of_lookupField t k v h
  have h1 : sizeOf (k, v) < sizeOf t := List.sizeOf_lt_of_mem hm
  have h2 : sizeOf (k, v) = 1 + sizeOf k + sizeOf v := rfl
  have h3 : 1 ≤ sizeOf k := by
    cases k
    simp
  omega

/-- Size bound for the fields found by an id search. -/
theorem sizeOf_findItemById (i : JValue) (l : List JValue)
    (f : List (String × JValue)) (h : findItemById i l = some f) :
    sizeOf f + 1 < sizeOf l := by
  obtain ⟨hm, _⟩ := findItemById_spec i l f h
  have h1 : sizeOf (JValue.obj f) < sizeOf l := List.sizeOf_lt_of_mem hm
  have h2 : sizeOf (JValue.obj f) = 1 + sizeOf f := by simp
  omega

/-- Object well-formedness, membership form. -/
theorem wfFields_iff_forall (l : List (String × JValue)) :
    wfFields l = true ↔ ∀ p ∈ l, wfV p.2 = true := by
  induction l with
  | nil => simp [wfFields]
  | cons p rest ih =>
      obtain ⟨k, v⟩ := p
      rw [wfFields]
      simp only [Bool.and_eq_true, ih, List.mem_cons]
      constructor
      · rintro ⟨h1, h2⟩ q (rfl | hq)
        · exact h1
        · exact h2 q hq
      · intro h
        exact ⟨h (k, v) (Or.inl rfl), fun q hq => h q (Or.inr hq)⟩

/-- Array element well-formedness, membership form. -/
theorem wfList_iff_forall (l : List JValue) :
    wfList l = true ↔ ∀ e ∈ l, wfV e = true := by
  induction l with
  | nil => simp [wfList]
  | cons e rest ih =>
      rw [wfList]
      simp only [Bool.and_eq_true, ih, List.mem_cons]
      constructor
      · rintro ⟨h1, h2⟩ q (rfl | hq)
        · exact h1
        · exact h2 q hq
      · intro h
        exact ⟨h e (Or.inl rfl), fun q hq => h q (Or.inr hq)⟩

/-- Object well-formedness splits across an append. -/
theorem wfFields_append (a b : List (String × JValue)) :
    wfFields (a ++ b) = (wfFields a && wfFields b) := by
  induction a with
  | nil => simp [wfFields]
  | cons p a' ih =>
      obtain ⟨k, v⟩ := p
      rw [List.cons_append, wfFields, wfFields, ih, Bool.and_assoc]

/-- The elementwise list merge preserves the item ids. -/
theorem item_ids_mergeItemsInto (s t : List JValue)
    (hwt : wfV (.arr t) = true) (hws : wfV (.arr s) = true) :
    item_ids (mergeItemsInto s t) = item_ids t := by
  induction t with
  | nil => rfl
  | cons e t' ih =>
      obtain ⟨hwe, hwt', hestr⟩ := wfV_arr_cons e t' hwt
      rw [mergeItemsInto_cons, item_ids_cons, item_ids_cons,
        getId_mergeItemElem s e hwe hws (fun j hj => (hestr j hj).1), ih hwt']

/-- `any` is monotone along sublists. -/
theorem any_true_of_sublist (p : JValue → Bool) (l' l : List JValue)
    (hs : List.Sublist l' l) (h : l'.any p = true) : l.any p = true := by
  simp only [List.any_eq_true] at h ⊢
  obtain ⟨x, hx, hp⟩ := h
  exact ⟨x, hs.subset hx, hp⟩

/-- Pairwise distinctness restricts to sublists. -/
theorem noDupB_sublist (l' l : List JValue) (hs : List.Sublist l' l) :
    noDupB l = true → noDupB l' = true := by
  induction hs with
  | slnil => intro h; exact h
  | cons x hsub ih =>
      intro h
      rw [noDupB] at h
      simp only [Bool.and_eq_true] at h
      exact ih h.2
  | cons₂ x hsub ih =>
      intro h
      rw [noDupB] at h ⊢
      simp only [Bool.and_eq_true] at h ⊢
      refine ⟨?_, ih h.2⟩
      cases ha : (List.any _ fun j => jBeq j x)
      · rfl
      · rw [any_true_of_sublist _ _ _ hsub ha] at h
        exact absurd h.1 (by simp)

/-- Building pairwise distinctness of an append. -/
theorem noDupB_append_build (A B : List JValue) (hA : noDupB A = true)
    (hB : noDupB B = true)
    (hcross : ∀ j ∈ A, ∀ i ∈ B, jBeq i j = false) :
    noDupB (A ++ B) = true := by
  induction A with
  | nil => simpa using hB
  | cons j A' ih =>
      rw [noDupB] at hA
      simp only [Bool.and_eq_true, Bool.not_eq_true', List.any_eq_false] at hA
      rw [List.cons_append, noDupB]
      simp only [Bool.and_eq_true, Bool.not_eq_true', List.any_eq_false]
      constructor
      · intro x hx
        rcases List.mem_append.1 hx with hx | hx
        · exact hA.1 x hx
        · simp [hcross j (List.mem_cons_self _ _) x hx]
      · exact ih hA.2 (fun j' hj' i hi =>
          hcross j' (List.mem_cons_of_mem _ hj') i hi)

/-- With unique string ids, the id search returns a member's own fields. -/
theorem findItemById_of_mem_nodup (l : List JValue)
    (tf : List (String × JValue)) (j : JValue) (hw : wfV (.arr l) = true)
    (hm : (.obj tf) ∈ l) (hid : lookupField tf "id" = some j) :
    findItemById j l = some tf := by
  induction l with
  | nil => simp at hm
  | cons e rest ih =>
      obtain ⟨hwe, hwrest, hestr⟩ := wfV_arr_cons e rest hw
      rcases List.mem_cons.1 hm with rfl | hm'
      · have hjstr : isStrB j = true :=
          (hestr j (by simp [getId_obj, hid])).1
        rw [findItemById_cons_obj]
        simp [hid, jBeq_refl_str j hjstr]
      · have hjmem : j ∈ item_ids rest :=
          mem_item_ids_of_mem rest tf j hm' hid
        have hjstr : isStrB j = true := (wfV_arr_parts _ hwrest).1 j hjmem
        cases e with
        | obj g =>
            rcases hid2 : lookupField g "id" with _ | j2
            · rw [findItemById_cons_obj]
              simp only [hid2]
              exact ih hwrest hm'
            · have hj2 : jBeq j j2 = false :=
                (hestr j2 (by simp [getId_obj, hid2])).2 j hjmem
              have hj2str : isStrB j2 = true :=
                (hestr j2 (by simp [getId_obj, hid2])).1
              have hj2j : jBeq j2 j = false :=
                jBeq_false_symm_str j j2 hjstr hj2str hj2
              rw [findItemById_cons_obj]
              simp only [hid2, hj2j]
              simp only [Bool.false_eq_true, if_false]
              exact ih hwrest hm'
        | null => rw [findItemById_cons_nonobj _ _ _ (by simp [isObjB])]
                  exact ih hwrest hm'
        | bool b => rw [findItemById_cons_nonobj _ _ _ (by simp [isObjB])]
                    exact ih hwrest hm'
        | num n => rw [findItemById_cons_nonobj _ _ _ (by simp [isObjB])]
                   exact ih hwrest hm'
        | str a => rw [findItemById_cons_nonobj _ _ _ (by simp [isObjB])]
                   exact ih hwrest hm'
        | arr l2 => rw [findItemById_cons_nonobj _ _ _ (by simp [isObjB])]
                    exact ih hwrest hm'

mutual

/-- `_deep_merge` preserves well-formedness of the field values. -/
theorem wfFields_deep_merge (t s : List (String × JValue))
    (hnt : keysNodup t = true) (hns : keysNodup s = true)
    (hwt : wfFields t = true) (hws : wfFields s = true) :
    wfFields (deep_merge t s) = true := by
  rw [deep_merge_eq_mergeFields s t hnt hns, mergeFields, wfFields_append]
  simp only [Bool.and_eq_true]
  constructor
  · rw [wfFields_iff_forall]
    intro p hp
    simp only [mergeInto, List.mem_map] at hp
    obtain ⟨q, hq, hpq⟩ := hp
    have hwq : wfV q.2 = true := (wfFields_iff_forall t).1 hwt q hq
    rcases hlk : lookupField s q.1 with _ | sv
    · simp only [hlk] at hpq
      rw [← hpq]
      exact hwq
    · simp only [hlk] at hpq
      have hwsv : wfV sv = true := wfV_of_lookupField s q.1 sv hws hlk
      have hsz : sizeOf sv + 1 < sizeOf s := sizeOf_lookupField s q.1 sv hlk
      have hrec : wfV (merge_value q.1 q.2 sv) = true :=
        wfV_merge_value q.1 q.2 sv hwq hwsv
      rw [← hpq]
      exact hrec
  · rw [wfFields_iff_forall]
    intro p hp
    exact (wfFields_iff_forall s).1 hws p (List.mem_of_mem_filter hp)
termination_by sizeOf s

/-- The per-key merge preserves well-formedness of the values. -/
theorem wfV_merge_value (k : String) (tv sv : JValue)
    (htv : wfV tv = true) (hsv : wfV sv = true) :
    wfV (merge_value k tv sv) = true := by
  cases tv <;> cases sv <;> (try (simpa [merge_value] using hsv))
  case obj.obj tf sf =>
    obtain ⟨hnt, hwt⟩ := wfV_obj_parts tf htv
    obtain ⟨hns, hws⟩ := wfV_obj_parts sf hsv
    have hrec : wfFields (deep_merge tf sf) = true :=
      wfFields_deep_merge tf sf hnt hns hwt hws
    rw [show merge_value k (JValue.obj tf) (JValue.obj sf) =
          JValue.obj (deep_merge tf sf) from by simp [merge_value]]
    rw [wfV]
    simp only [Bool.and_eq_true]
    exact ⟨keysNodup_deep_merge sf tf hnt hns, hrec⟩
  case arr.arr tl sl =>
    rw [show merge_value k (JValue.arr tl) (JValue.arr sl) =
          (if (k = "relays" ∨ k = "tasks") ∧ allDictsB (tl ++ sl) = true then
            JValue.arr (merge_list_by_id tl sl)
          else JValue.arr sl) from by simp [merge_value]]
    split_ifs with hc
    · exact wfV_arr_merge_list tl sl htv hsv
    · exact hsv
termination_by sizeOf sv + 1

/-- `_merge_list_by_id` preserves well-formedness of the list. -/
theorem wfV_arr_merge_list (t s : List JValue)
    (hwt : wfV (.arr t) = true) (hws : wfV (.arr s) = true) :
    wfV (.arr (merge_list_by_id t s)) = true := by
  rw [merge_list_by_id_eq_spec t s hwt hws]
  obtain ⟨htstr, htnd, htwl⟩ := wfV_arr_parts t hwt
  obtain ⟨hsstr, hsnd, hswl⟩ := wfV_arr_parts s hws
  have hids : item_ids (mergeItemsInto s t) = item_ids t :=
    item_ids_mergeItemsInto s t hwt hws
  simp only [mergeItemsSpec]
  rw [wfV]
  simp only [Bool.and_eq_true, List.all_eq_true]
  refine ⟨⟨?_, ?_⟩, ?_⟩
  · intro x hx
    rw [item_ids_append, hids] at hx
    rcases List.mem_append.1 hx with hx | hx
    · exact htstr x hx
    · exact hsstr x (mem_item_ids_filter _ s x (by simpa only [newItemsFilter] using hx))
  · rw [item_ids_append, hids]
    refine noDupB_append_build _ _ htnd ?_ ?_
    · have hsub : List.Sublist (item_ids (newItemsFilter t s)) (item_ids s) := by
        simp only [item_ids, newItemsFilter]
        exact (List.filter_sublist s).filterMap getId
      exact noDupB_sublist _ _ hsub hsnd
    · intro j hj i hi
      have histr : isStrB i = true :=
        hsstr i (mem_item_ids_filter _ s i (by simpa only [newItemsFilter] using hi))
      simp only [item_ids, newItemsFilter] at hi
      obtain ⟨e, he, hg⟩ := List.mem_filterMap.1 hi
      have hkeep := List.of_mem_filter he
      simp only [hg] at hkeep
      have hni : hasIdB i t = false := by simpa using hkeep
      have hfalse := (hasIdB_eq_false_iff i t).1 hni
      exact jBeq_false_symm_str j i (htstr j hj) histr (hfalse j hj)
  · rw [wfList_append]
    simp only [Bool.and_eq_true]
    constructor
    · rw [wfList_iff_forall]
      intro e he
      simp only [mergeItemsInto, List.mem_map] at he
      obtain ⟨q, hq, rfl⟩ := he
      have hwq : wfV q = true := wfV_of_mem_wfList t q htwl hq
      cases q
      case obj tf =>
        rcases hid : lookupField tf "id" with _ | j
        · rw [show mergeItemElem s (JValue.obj tf) = JValue.obj tf from by
            simp [mergeItemElem, hid]]
          exact hwq
        · rcases hf : findItemById j s with _ | sf
          · rw [show mergeItemElem s (JValue.obj tf) = JValue.obj tf from by
              simp [mergeItemElem, hid, hf]]
            exact hwq
          · rw [show mergeItemElem s (JValue.obj tf) =
                  JValue.obj (deep_merge tf sf) from by
              simp [mergeItemElem, hid, hf]]
            obtain ⟨hm, -⟩ := findItemById_spec j s sf hf
            have hwsf : wfV (JValue.obj sf) = true :=
              wfV_of_mem_wfList s (JValue.obj sf) hswl hm
            obtain ⟨hn1, hw1⟩ := wfV_obj_parts tf hwq
            obtain ⟨hn2, hw2⟩ := wfV_obj_parts sf hwsf
            have hsz : sizeOf sf + 1 < sizeOf s := sizeOf_findItemById j s sf hf
            have hrec : wfFields (deep_merge tf sf) = true :=
              wfFields_deep_merge tf sf hn1 hn2 hw1 hw2
            rw [wfV]
            simp only [Bool.and_eq_true]
            exact ⟨keysNodup_deep_merge sf tf hn1 hn2, hrec⟩
      all_goals
        rw [mergeItemElem_nonobj s _ (by simp [isObjB])]
        exact hwq
    · rw [wfList_iff_forall]
      intro e he
      simp only [newItemsFilter] at he
      exact (wfList_iff_forall s).1 hswl e (List.mem_of_mem_filter he)
termination_by sizeOf s + 1

end

/-- A map that fixes every member is the identity. -/
theorem map_self_of_forall {α : Type} (l : List α) (F : α → α)
    (h : ∀ a ∈ l, F a = a) : l.map F = l := by
  induction l with
  | nil => rfl
  | cons x xs ih =>
      rw [List.map_cons, h x (List.mem_cons_self _ _),
        ih (fun a ha => h a (List.mem_cons_of_mem _ ha))]

mutual

/-- The per-key merge is idempotent on well-formed values. -/
theorem merge_value_idem (k : String) (v : JValue) (hw : wfV v = true) :
    merge_value k v v = v := by
  cases v
  case obj f =>
    rw [show merge_value k (JValue.obj f) (JValue.obj f) =
          JValue.obj (deep_merge f f) from by simp [merge_value]]
    obtain ⟨hn, hwf⟩ := wfV_obj_parts f hw
    rw [deep_merge_idem f hn hwf]
  case arr l =>
    rw [show merge_value k (JValue.arr l) (JValue.arr l) =
          (if (k = "relays" ∨ k = "tasks") ∧ allDictsB (l ++ l) = true then
            JValue.arr (merge_list_by_id l l)
          else JValue.arr l) from by simp [merge_value]]
    split_ifs with hc
    · rw [merge_list_idem l hw]
    · rfl
  all_goals simp [merge_value]
termination_by sizeOf v + 1

/-- `_deep_merge` of a well-formed document into itself is the identity. -/
theorem deep_merge_idem (f : List (String × JValue))
    (hn : keysNodup f = true) (hw : wfFields f = true) :
    deep_merge f f = f := by
  rw [deep_merge_eq_mergeFields f f hn hn, mergeFields]
  have hfil : f.filter (fun p => (lookupField f p.1).isNone) = [] := by
    rw [List.filter_eq_nil_iff]
    intro p hp
    have hs := lookupField_isSome_of_mem f p.1 p.2 hp
    simp
    intro hnone
    rw [hnone] at hs
    exact absurd hs (by simp)
  have hmap : mergeInto f f = f := by
    simp only [mergeInto]
    apply map_self_of_forall
    intro p hp
    have hlk : lookupField f p.1 = some p.2 :=
      lookupField_of_mem_nodup f p.1 p.2 hn hp
    simp only [hlk]
    have hwp : wfV p.2 = true := (wfFields_iff_forall f).1 hw p hp
    have hsz : sizeOf p.2 + 1 < sizeOf f := sizeOf_lookupField f p.1 p.2 hlk
    rw [merge_value_idem p.1 p.2 hwp]
  rw [hmap, hfil, List.append_nil]
termination_by sizeOf f

/-- `_merge_list_by_id` of a well-formed list into itself is the identity. -/
theorem merge_list_idem (l : List JValue) (hw : wfV (.arr l) = true) :
    merge_list_by_id l l = l := by
  obtain ⟨hstr, hnd, hwl⟩ := wfV_arr_parts l hw
  rw [merge_list_by_id_eq_spec l l hw hw]
  simp only [mergeItemsSpec]
  have hfil : newItemsFilter l l = [] := by
    simp only [newItemsFilter]
    rw [List.filter_eq_nil_iff]
    intro e he
    rcases hg : getId e with _ | i
    · simp [hg]
    · obtain ⟨f, rfl⟩ : ∃ f, e = JValue.obj f := by
        cases e <;> simp [getId] at hg ⊢
      rw [getId_obj] at hg
      have histr : isStrB i = true := hstr i (mem_item_ids_of_mem l f i he hg)
      have hhas : hasIdB i l = true :=
        findItemById_isSome_of_mem i l f i he hg (jBeq_refl_str i histr)
      simp [getId_obj, hg, hhas]
  have hmap : mergeItemsInto l l = l := by
    simp only [mergeItemsInto]
    apply map_self_of_forall
    intro e he
    cases e
    case obj tf =>
      rcases hid : lookupField tf "id" with _ | j
      · simp [mergeItemElem, hid]
      · have hfind : findItemById j l = some tf :=
          findItemById_of_mem_nodup l tf j hw he hid
        simp only [mergeItemElem, hid, hfind]
        have hwtf : wfV (JValue.obj tf) = true := wfV_of_mem_wfList l _ hwl he
        obtain ⟨hn1, hw1⟩ := wfV_obj_parts tf hwtf
        have hsz : sizeOf tf + 1 < sizeOf l := sizeOf_findItemById j l tf hfind
        rw [deep_merge_idem tf hn1 hw1]
    all_goals rw [mergeItemElem_nonobj l _ (by simp [isObjB])]
  rw [hmap, hfil, List.append_nil]
termination_by sizeOf l + 1

end

/-- The new-ids filter distributes over an append of sources. -/
theorem newItemsFilter_append (t a b : List JValue) :
    newItemsFilter t (a ++ b) = newItemsFilter t a ++ newItemsFilter t b := by
  simp [newItemsFilter, List.filter_append]

/-- The by-id list merge keeps every truthy element a dict, so the guard of
the list branch stays satisfied when the merged list is merged again. -/
theorem allDictsB_merge_list (tl sl : List JValue)
    (hwt : wfV (.arr tl) = true) (hws : wfV (.arr sl) = true)
    (hall : allDictsB (tl ++ sl) = true) :
    allDictsB (tl ++ merge_list_by_id tl sl) = true := by
  simp only [allDictsB, List.all_append, Bool.and_eq_true] at hall ⊢
  obtain ⟨ht, hs⟩ := hall
  refine ⟨ht, ?_⟩
  rw [merge_list_by_id_eq_spec tl sl hwt hws]
  simp only [mergeItemsSpec, List.all_append, Bool.and_eq_true]
  constructor
  · simp only [List.all_eq_true]
    intro e he
    simp only [mergeItemsInto, List.mem_map] at he
    obtain ⟨q, hq, rfl⟩ := he
    cases q
    case obj tf =>
      obtain ⟨g, hg⟩ := mergeItemElem_obj sl tf
      rw [hg]
      simp [isObjB]
    all_goals
      rw [mergeItemElem_nonobj sl _ (by simp [isObjB])]
      exact (List.all_eq_true.1 ht) _ hq
  · simp only [List.all_eq_true]
    intro e he
    simp only [newItemsFilter] at he
    exact (List.all_eq_true.1 hs) e (List.mem_of_mem_filter he)

mutual

/-- The per-key merge is absorptive: merging an already-merged value back
onto the same target value reproduces it. -/
theorem merge_value_absorb (k : String) (tv sv : JValue)
    (htv : wfV tv = true) (hsv : wfV sv = true) :
    merge_value k tv (merge_value k tv sv) = merge_value k tv sv := by
  cases tv <;> cases sv
  case obj.obj tf sf =>
    rw [show merge_value k (JValue.obj tf) (JValue.obj sf) =
          JValue.obj (deep_merge tf sf) from by simp [merge_value]]
    rw [show merge_value k (JValue.obj tf) (JValue.obj (deep_merge tf sf)) =
          JValue.obj (deep_merge tf (deep_merge tf sf)) from by
        simp [merge_value]]
    obtain ⟨hn1, hw1⟩ := wfV_obj_parts tf htv
    obtain ⟨hn2, hw2⟩ := wfV_obj_parts sf hsv
    rw [deep_merge_absorb tf sf hn1 hn2 hw1 hw2]
  case arr.arr tl sl =>
    by_cases hc : (k = "relays" ∨ k = "tasks") ∧ allDictsB (tl ++ sl) = true
    · have heq : merge_value k (JValue.arr tl) (JValue.arr sl) =
          JValue.arr (merge_list_by_id tl sl) := by
        rw [show merge_value k (JValue.arr tl) (JValue.arr sl) =
              (if (k = "relays" ∨ k = "tasks") ∧
                  allDictsB (tl ++ sl) = true then
                JValue.arr (merge_list_by_id tl sl)
              else JValue.arr sl) from by simp [merge_value]]
        exact if_pos hc
      rw [heq]
      have hc2 : (k = "relays" ∨ k = "tasks") ∧
          allDictsB (tl ++ merge_list_by_id tl sl) = true :=
        ⟨hc.1, allDictsB_merge_list tl sl htv hsv hc.2⟩
      have heq2 : merge_value k (JValue.arr tl)
            (JValue.arr (merge_list_by_id tl sl)) =
          JValue.arr (merge_list_by_id tl (merge_list_by_id tl sl)) := by
        rw [show merge_value k (JValue.arr tl)
              (JValue.arr (merge_list_by_id tl sl)) =
              (if (k = "relays" ∨ k = "tasks") ∧
                  allDictsB (tl ++ merge_list_by_id tl sl) = true then
                JValue.arr (merge_list_by_id tl (merge_list_by_id tl sl))
              else JValue.arr (merge_list_by_id tl sl)) from by
            simp [merge_value]]
        exact if_pos hc2
      rw [heq2, merge_list_absorb tl sl htv hsv]
    · have heq : merge_value k (JValue.arr tl) (JValue.arr sl) =
          JValue.arr sl := by
        rw [show merge_value k (JValue.arr tl) (JValue.arr sl) =
              (if (k = "relays" ∨ k = "tasks") ∧
                  allDictsB (tl ++ sl) = true then
                JValue.arr (merge_list_by_id tl sl)
              else JValue.arr sl) from by simp [merge_value]]
        exact if_neg hc
      rw [heq]
      exact heq
  all_goals simp [merge_value]
termination_by sizeOf sv + 1

/-- `_deep_merge` is absorptive on well-formed documents. -/
theorem deep_merge_absorb (t s : List (String × JValue))
    (hnt : keysNodup t = true) (hns : keysNodup s = true)
    (hwt : wfFields t = true) (hws : wfFields s = true) :
    deep_merge t (deep_merge t s) = deep_merge t s := by
  have hm_nodup : keysNodup (deep_merge t s) = true :=
    keysNodup_deep_merge s t hnt hns
  have hcf : deep_merge t s = mergeFields t s :=
    deep_merge_eq_mergeFields s t hnt hns
  rw [deep_merge_eq_mergeFields (deep_merge t s) t hnt hm_nodup, mergeFields]
  have hpart1 : mergeInto (deep_merge t s) t = mergeInto s t := by
    simp only [mergeInto]
    apply List.map_congr_left
    intro p hp
    have hlt : lookupField t p.1 = some p.2 :=
      lookupField_of_mem_nodup t p.1 p.2 hnt hp
    have hld := lookupField_deep_merge t s p.1 hnt hns
    rw [hlt] at hld
    have hwp : wfV p.2 = true := (wfFields_iff_forall t).1 hwt p hp
    rcases hls : lookupField s p.1 with _ | sv
    · rw [hls] at hld
      simp only [hld, hls]
      rw [merge_value_idem p.1 p.2 hwp]
    · rw [hls] at hld
      simp only [hld, hls]
      have hwsv : wfV sv = true := wfV_of_lookupField s p.1 sv hws hls
      have hsz : sizeOf sv + 1 < sizeOf s := sizeOf_lookupField s p.1 sv hls
      rw [merge_value_absorb p.1 p.2 sv hwp hwsv]
  have hpart2 : (deep_merge t s).filter
        (fun p => (lookupField t p.1).isNone) =
      s.filter (fun p => (lookupField t p.1).isNone) := by
    rw [hcf, mergeFields, List.filter_append]
    have h1 : (mergeInto s t).filter
        (fun p => (lookupField t p.1).isNone) = [] := by
      rw [List.filter_eq_nil_iff]
      intro p hp
      simp only [mergeInto, List.mem_map] at hp
      obtain ⟨q, hq, hpq⟩ := hp
      have hkey : p.1 = q.1 := by
        rcases hls : lookupField s q.1 with _ | sv <;>
          simp only [hls] at hpq <;> rw [← hpq]
      have hs := lookupField_isSome_of_mem t q.1 q.2 hq
      simp only [hkey]
      intro hnone
      rw [Option.isNone_iff_eq_none] at hnone
      rw [hnone] at hs
      exact absurd hs (by simp)
    have h2 : (s.filter (fun p => (lookupField t p.1).isNone)).filter
          (fun p => (lookupField t p.1).isNone) =
        s.filter (fun p => (lookupField t p.1).isNone) := by
      rw [List.filter_eq_self]
      intro a ha
      have h3 := List.of_mem_filter ha
      exact h3
    rw [h1, h2, List.nil_append]
  rw [hpart1, hpart2, hcf, mergeFields]
termination_by sizeOf s

/-- `_merge_list_by_id` is absorptive on well-formed lists. -/
theorem merge_list_absorb (t s : List JValue)
    (hwt : wfV (.arr t) = true) (hws : wfV (.arr s) = true) :
    merge_list_by_id t (merge_list_by_id t s) = merge_list_by_id t s := by
  have hwm : wfV (.arr (merge_list_by_id t s)) = true :=
    wfV_arr_merge_list t s hwt hws
  have hm : merge_list_by_id t s = mergeItemsSpec t s :=
    merge_list_by_id_eq_spec t s hwt hws
  obtain ⟨htstr, htnd, htwl⟩ := wfV_arr_parts t hwt
  obtain ⟨hsstr, hsnd, hswl⟩ := wfV_arr_parts s hws
  have hmspec : wfV (.arr (mergeItemsInto s t ++ newItemsFilter t s)) = true := by
    have h0 := hwm
    rw [hm] at h0
    simpa only [mergeItemsSpec] using h0
  obtain ⟨hwA, hwB, hcrossAB⟩ := wfV_arr_append_parts _ _ hmspec
  rw [merge_list_by_id_eq_spec t (merge_list_by_id t s) hwt hwm]
  simp only [mergeItemsSpec]
  have hpartA : mergeItemsInto (merge_list_by_id t s) t = mergeItemsInto s t := by
    simp only [mergeItemsInto]
    apply List.map_congr_left
    intro e he
    cases e
    case obj tf =>
      rcases hid : lookupField tf "id" with _ | j
      · simp [mergeItemElem, hid]
      · have hwe : wfV (JValue.obj tf) = true := wfV_of_mem_wfList t _ htwl he
        obtain ⟨g, hg⟩ := mergeItemElem_obj s tf
        have hgmem : JValue.obj g ∈ mergeItemsInto s t := by
          simp only [mergeItemsInto]
          exact hg ▸ List.mem_map_of_mem (mergeItemElem s) he
        have hstr1 : ∀ j', getId (JValue.obj tf) = some j' → isStrB j' = true := by
          intro j' hj'
          rw [getId_obj] at hj'
          exact htstr j' (mem_item_ids_of_mem t tf j' he hj')
        have hgid : lookupField g "id" = some j := by
          have h1 := getId_mergeItemElem s (JValue.obj tf) hwe hws hstr1
          rw [hg, getId_obj, getId_obj, hid] at h1
          exact h1
        have hfindA : findItemById j (mergeItemsInto s t) = some g :=
          findItemById_of_mem_nodup (mergeItemsInto s t) g j hwA hgmem hgid
        have hfindm : findItemById j (merge_list_by_id t s) = some g := by
          rw [hm]
          simp only [mergeItemsSpec]
          rw [findItemById_append]
          simp only [hfindA]
        rw [show mergeItemElem (merge_list_by_id t s) (JValue.obj tf) =
              JValue.obj (deep_merge tf g) from by
            simp [mergeItemElem, hid, hfindm]]
        rw [hg]
        rcases hf : findItemById j s with _ | sf
        · have hg2 : tf = g := by
            rw [show mergeItemElem s (JValue.obj tf) = JValue.obj tf from by
              simp [mergeItemElem, hid, hf]] at hg
            simpa using hg
          rw [← hg2]
          obtain ⟨hn1, hw1⟩ := wfV_obj_parts tf hwe
          rw [deep_merge_idem tf hn1 hw1]
        · have hg3 : deep_merge tf sf = g := by
            rw [show mergeItemElem s (JValue.obj tf) =
                  JValue.obj (deep_merge tf sf) from by
                simp [mergeItemElem, hid, hf]] at hg
            simpa using hg
          rw [← hg3]
          obtain ⟨hm2, -⟩ := findItemById_spec j s sf hf
          have hwsf : wfV (JValue.obj sf) = true := wfV_of_mem_wfList s _ hswl hm2
          obtain ⟨hn1, hw1⟩ := wfV_obj_parts tf hwe
          obtain ⟨hn2, hw2⟩ := wfV_obj_parts sf hwsf
          have hsz : sizeOf sf + 1 < sizeOf s := sizeOf_findItemById j s sf hf
          rw [deep_merge_absorb tf sf hn1 hn2 hw1 hw2]
    all_goals
      rw [mergeItemElem_nonobj _ _ (by simp [isObjB]),
        mergeItemElem_nonobj _ _ (by simp [isObjB])]
  have hpartB : newItemsFilter t (merge_list_by_id t s) = newItemsFilter t s := by
    rw [hm]
    simp only [mergeItemsSpec]
    rw [newItemsFilter_append]
    have h1 : newItemsFilter t (mergeItemsInto s t) = [] := by
      simp only [newItemsFilter]
      rw [List.filter_eq_nil_iff]
      intro e he
      simp only [mergeItemsInto, List.mem_map] at he
      obtain ⟨q, hq, rfl⟩ := he
      have hwq : wfV q = true := wfV_of_mem_wfList t q htwl hq
      have hstrq : ∀ j', getId q = some j' → isStrB j' = true := by
        intro j' hj'
        obtain ⟨qf, rfl⟩ : ∃ qf, q = JValue.obj qf := by
          cases q <;> simp [getId] at hj' ⊢
        rw [getId_obj] at hj'
        exact htstr j' (mem_item_ids_of_mem t qf j' hq hj')
      have hgid := getId_mergeItemElem s q hwq hws hstrq
      rcases hgq : getId q with _ | i
      · rw [hgq] at hgid
        simp [hgid]
      · rw [hgq] at hgid
        obtain ⟨qf, rfl⟩ : ∃ qf, q = JValue.obj qf := by
          cases q <;> simp [getId] at hgq ⊢
        rw [getId_obj] at hgq
        have histr : isStrB i = true :=
          htstr i (mem_item_ids_of_mem t qf i hq hgq)
        have hhas : hasIdB i t = true :=
          findItemById_isSome_of_mem i t qf i hq hgq (jBeq_refl_str i histr)
        simp [hgid, hhas]
    have h2 : newItemsFilter t (newItemsFilter t s) = newItemsFilter t s := by
      simp only [newItemsFilter]
      rw [List.filter_eq_self]
      intro a ha
      have h3 := List.of_mem_filter ha
      exact h3
    rw [h1, h2, List.nil_append]
  rw [hpartA, hpartB, hm, mergeItemsSpec]
termination_by sizeOf s + 1

end

set_option maxHeartbeats 1000000 in
/-- C5: merging the custom configuration onto the default merges the
`relays`/`tasks` lists element-wise by the `id` field: every target element
is transformed in place (a dict whose id has no matching source dict is
preserved unchanged, a dict with a matching source dict is deep-merged with
it) and the source dicts carrying new ids are appended; in particular,
merging `relays=[{id:"relay_2", pulse_time:9}]` onto the sample default
relay list changes only relay_2's pulse_time to 9 and leaves every other
relay identical. -/
theorem config_lists_merge_by_id (t s : List JValue)
    (hwt : wfV (JValue.arr t) = true) (hws : wfV (JValue.arr s) = true) :
    merge_list_by_id t s = t.map (mergeItemElem s) ++ newItemsFilter t s ∧
    (∀ tf j, lookupField tf "id" = some j → findItemById j s = none →
      mergeItemElem s (JValue.obj tf) = JValue.obj tf) ∧
    (∀ tf j sf, lookupField tf "id" = some j → findItemById j s = some sf →
      mergeItemElem s (JValue.obj tf) = JValue.obj (deep_merge tf sf)) ∧
    merge_list_by_id sample_default_relays custom_relay2_patch =
      [sampleRelay "relay_1" 5, sampleRelay "relay_2" 9,
       sampleRelay "relay_3" 5, sampleRelay "relay_4" 5,
       sampleRelay "relay_5" 5, sampleRelay "relay_6" 5] := by
  refine ⟨?_, ?_, ?_, ?_⟩
  · have h := merge_list_by_id_eq_spec t s hwt hws
    simpa [mergeItemsSpec, mergeItemsInto] using h
  · intro tf j hid hf
    simp [mergeItemElem, hid, hf]
  · intro tf j sf hid hf
    simp [mergeItemElem, hid, hf]
  · simp [merge_list_by_id, merge_items, update_last_by_id, hasIdB,
      findItemById, lookupField, deep_merge, merge_value, setField,
      sample_default_relays, custom_relay2_patch, sampleRelay, jBeq, getId]

set_option maxHeartbeats 1000000 in
/-- Witness for C5 at the sample default relay list and the relay_2 patch:
both lists are well-formed and the merge changes only relay_2's pulse
time. -/
theorem config_lists_merge_by_id_witness :
    wfV (JValue.arr sample_default_relays) = true ∧
    wfV (JValue.arr custom_relay2_patch) = true ∧
    merge_list_by_id sample_default_relays custom_relay2_patch =
      [sampleRelay "relay_1" 5, sampleRelay "relay_2" 9,
       sampleRelay "relay_3" 5, sampleRelay "relay_4" 5,
       sampleRelay "relay_5" 5, sampleRelay "relay_6" 5] := by
  have h1 : wfV (JValue.arr sample_default_relays) = true := by
    simp [wfV, wfList, wfFields, keysNodup, noDupB, item_ids, getId,
      lookupField, isStrB, jBeq, sample_default_relays, sampleRelay]
  have h2 : wfV (JValue.arr custom_relay2_patch) = true := by
    simp [wfV, wfList, wfFields, keysNodup, noDupB, item_ids, getId,
      lookupField, isStrB, jBeq, custom_relay2_patch]
  exact ⟨h1, h2, (config_lists_merge_by_id _ _ h1 h2).2.2.2⟩

/-- C6: configuration updates round-trip.  In a consistent manager state
(effective = default merged with custom) with well-formed documents,
`update_custom_config (get_full_config ())` leaves the effective document
unchanged — the deep merge is absorptive — and `revert_to_defaults` makes
the effective document equal to the default document. -/
theorem config_update_roundtrip (st : ConfigState) (save_ok : Bool)
    (hcons : st.effective_config =
      generate_effective_config st.default_config st.custom_config)
    (hwd : wfDoc st.default_config = true)
    (hwc : wfDoc st.custom_config = true) :
    (update_custom_config st (get_full_config st) save_ok).1.effective_config =
      st.effective_config ∧
    (revert_to_defaults st).1.effective_config = st.default_config := by
  obtain ⟨hnd, hfd⟩ : keysNodup st.default_config = true ∧
      wfFields st.default_config = true := by
    simpa [wfDoc, Bool.and_eq_true] using hwd
  obtain ⟨hnc, hfc⟩ : keysNodup st.custom_config = true ∧
      wfFields st.custom_config = true := by
    simpa [wfDoc, Bool.and_eq_true] using hwc
  constructor
  · simp only [update_custom_config, get_full_config]
    rw [hcons]
    by_cases hce : st.custom_config.isEmpty = true
    · simp only [generate_effective_config]
      rw [if_pos hce]
      by_cases hde : st.default_config.isEmpty = true
      · rw [if_pos hde]
      · rw [if_neg hde, deep_merge_idem st.default_config hnd hfd]
    · simp only [generate_effective_config]
      rw [if_neg hce]
      have hne : (deep_merge st.default_config st.custom_config).isEmpty
          = false := by
        rw [deep_merge_eq_mergeFields st.custom_config st.default_config
          hnd hnc, mergeFields]
        cases hdd : st.default_config with
        | nil =>
            simp only [mergeInto, List.map_nil, List.nil_append]
            have hfull : st.custom_config.filter
                (fun p => (lookupField [] p.1).isNone) = st.custom_config := by
              rw [List.filter_eq_self]
              intro a ha
              simp [lookupField]
            rw [hfull]
            simpa using hce
        | cons p d0 => simp [mergeInto]
      rw [if_neg (by simp [hne])]
      exact deep_merge_absorb st.default_config st.custom_config
        hnd hnc hfd hfc
  · rfl

/-- Witness for C6 at a concrete consistent state: default
`{"pulse_time": 5}`, custom `{"pulse_time": 9}`. -/
theorem config_update_roundtrip_witness :
    wfDoc [("pulse_time", JValue.num 5)] = true ∧
    wfDoc [("pulse_time", JValue.num 9)] = true ∧
    ((update_custom_config
        ⟨[("pulse_time", JValue.num 5)], [("pulse_time", JValue.num 9)],
          generate_effective_config [("pulse_time", JValue.num 5)]
            [("pulse_time", JValue.num 9)]⟩
        (get_full_config
          ⟨[("pulse_time", JValue.num 5)], [("pulse_time", JValue.num 9)],
            generate_effective_config [("pulse_time", JValue.num 5)]
              [("pulse_time", JValue.num 9)]⟩) true).1.effective_config =
      generate_effective_config [("pulse_time", JValue.num 5)]
        [("pulse_time", JValue.num 9)] ∧
    (revert_to_defaults
        ⟨[("pulse_time", JValue.num 5)], [("pulse_time", JValue.num 9)],
          generate_effective_config [("pulse_time", JValue.num 5)]
            [("pulse_time", JValue.num 9)]⟩).1.effective_config =
      [("pulse_time", JValue.num 5)]) := by
  have hwd : wfDoc [("pulse_time", JValue.num 5)] = true := by
    simp [wfDoc, keysNodup, wfFields, wfV, lookupField]
  have hwc : wfDoc [("pulse_time", JValue.num 9)] = true := by
    simp [wfDoc, keysNodup, wfFields, wfV, lookupField]
  have h := config_update_roundtrip
    ⟨[("pulse_time", JValue.num 5)], [("pulse_time", JValue.num 9)],
      generate_effective_config [("pulse_time", JValue.num 5)]
        [("pulse_time", JValue.num 9)]⟩ true rfl hwd hwc
  exact ⟨hwd, hwc, h.1, h.2⟩

/-- C8 counterexample: `update_custom_config` performs no schema validation
and no atomic write.  Updating with the schema-violating document
`{"relays": 5}` succeeds, writes the document directly to the custom config
path with no rename step, and leaves an effective configuration whose
`relays` field is not a list. -/
theorem config_update_no_validation :
    (update_custom_config ⟨[], [], []⟩ [("relays", JValue.num 5)] true).2.1
      = true ∧
    schema_requires_relays_list
      (update_custom_config ⟨[], [], []⟩
        [("relays", JValue.num 5)] true).1.effective_config = false ∧
    (update_custom_config ⟨[], [], []⟩ [("relays", JValue.num 5)] true).2.2 =
      [FsOp.write custom_config_path [("relays", JValue.num 5)]] ∧
    ((update_custom_config ⟨[], [], []⟩
        [("relays", JValue.num 5)] true).2.2.all
      (fun op => ! isRenameOp op)) = true := by
  refine ⟨rfl, ?_, rfl, rfl⟩
  simp [update_custom_config, generate_effective_config, deep_merge,
    lookupField, schema_requires_relays_list]

/-- C8 amended: every full configuration update stores the new custom
document verbatim without any schema validation, regenerates the effective
document as the deep merge of default and new custom, and persists with a
single direct write of the custom document to the custom config path — no
temporary file and no rename — returning whatever the save step reports. -/
theorem config_update_direct_write (st : ConfigState)
    (nc : List (String × JValue)) (ok : Bool) :
    (update_custom_config st nc ok).2.1 = ok ∧
    (update_custom_config st nc ok).1.custom_config = nc ∧
    (update_custom_config st nc ok).1.effective_config =
      generate_effective_config st.default_config nc ∧
    (update_custom_config st nc ok).2.2 =
      [FsOp.write custom_config_path nc] ∧
    ((update_custom_config st nc ok).2.2.all (fun op => ! isRenameOp op))
      = true :=
  ⟨rfl, rfl, rfl, rfl, rfl⟩

/-- Witness for the amended C8 statement at a concrete update. -/
theorem config_update_direct_write_witness :
    (update_custom_config ⟨[], [], []⟩ [("name", JValue.str "x")] true).2.2 =
      [FsOp.write custom_config_path [("name", JValue.str "x")]] :=
  (config_update_direct_write ⟨[], [], []⟩
    [("name", JValue.str "x")] true).2.2.2.1
